import Mathlib

/-!
Verification of the HTTP/1.x protocol engine of this repository
(`twisted.web.http`).  The implementation module itself is not present in the
source tree (only its test suite, `twisted/web/test/test_http.py`, is), so the
definitions below are modelled from the specification, kept consistent with the
behaviour asserted by the repository's own tests.

Byte strings are modelled as lists of natural numbers (byte values); stateful
objects are modelled as explicit state records with transition functions;
Python exceptions are modelled as explicit error values.
-/

set_option maxRecDepth 10000

namespace Spec2Proof

/-- A byte string: a list of byte values. -/
abbrev ByteStr := List Nat

/-- Build a byte string from the ASCII characters of a Lean string literal. -/
def bs (s : String) : ByteStr := s.toList.map Char.toNat

/-- Carriage return byte. -/
def CR : Nat := 13

/-- Line feed byte. -/
def LF : Nat := 10

/-- The CRLF delimiter. -/
def CRLF : ByteStr := [CR, LF]

/-- Lowercase an ASCII byte (A-Z mapped to a-z, everything else unchanged). -/
def lowerByte (b : Nat) : Nat := if 65 ≤ b ∧ b ≤ 90 then b + 32 else b

/-- Lowercase a byte string, as Python `bytes.lower()`. -/
def lowerBytes (s : ByteStr) : ByteStr := s.map lowerByte

/-- Whether a byte counts as Python whitespace (as used by `bytes.strip` and
`bytes.split()` with no argument). -/
def isSpaceByte (b : Nat) : Bool :=
  b == 32 || b == 9 || b == 10 || b == 13 || b == 11 || b == 12

/-- Python `bytes.strip()`: drop leading and trailing whitespace. -/
def stripBytes (s : ByteStr) : ByteStr :=
  ((s.dropWhile (fun b => isSpaceByte b)).reverse.dropWhile
    (fun b => isSpaceByte b)).reverse

/-- Python `bytes.split()` with no separator: split on runs of whitespace,
discarding empty pieces. -/
def splitWS (s : ByteStr) : List ByteStr :=
  (s.splitOnP (fun b => isSpaceByte b)).filter (fun p => p ≠ [])

/-- Split a byte string at the first occurrence of a given byte
(Python `bytes.split(sep, 1)` for a one-byte separator, when present). -/
def splitAtByte (sep : Nat) : ByteStr → Option (ByteStr × ByteStr)
  | [] => none
  | b :: rest =>
    if b = sep then some ([], rest)
    else match splitAtByte sep rest with
      | none => none
      | some (l, r) => some (b :: l, r)

/-- Split a byte string at the first occurrence of CRLF
(Python `bytes.split(b"\r\n", 1)`, when CRLF occurs; also the line extraction
step of the line-buffering parser). -/
def splitCRLF : ByteStr → Option (ByteStr × ByteStr)
  | [] => none
  | [_] => none
  | b0 :: b1 :: rest =>
    if b0 = CR ∧ b1 = LF then some ([], rest)
    else match splitCRLF (b1 :: rest) with
      | none => none
      | some (l, r) => some (b0 :: l, r)

/-- Whether every byte of the string is ASCII (Python `bytes.decode("ascii")`
succeeding). -/
def allAscii (s : ByteStr) : Bool := s.all (fun b => b < 128)

/-- The value of an ASCII hex digit, accepting both cases
(as Python `int(_, 16)` does). -/
def hexVal (b : Nat) : Option Nat :=
  if 48 ≤ b ∧ b ≤ 57 then some (b - 48)
  else if 97 ≤ b ∧ b ≤ 102 then some (b - 87)
  else if 65 ≤ b ∧ b ≤ 70 then some (b - 55)
  else none

/-- The value of an ASCII decimal digit. -/
def decVal (b : Nat) : Option Nat :=
  if 48 ≤ b ∧ b ≤ 57 then some (b - 48) else none

/-- Accumulating parser for a nonempty run of hex digits. -/
def parseHexAux (acc : Nat) : ByteStr → Option Nat
  | [] => some acc
  | b :: rest =>
    match hexVal b with
    | none => none
    | some v => parseHexAux (acc * 16 + v) rest

/-- Parse a byte string of hex digits into a natural number; fails on the
empty string or any non-digit byte. -/
def parseHexDigits (s : ByteStr) : Option Nat :=
  match s with
  | [] => none
  | _ => parseHexAux 0 s

/-- Modelled from the spec: the integer conversion Python `int(s, 16)` applies
to a chunk-size field — an optional leading minus sign followed by hex digits.
(Surrounding whitespace, a `+` sign and a `0x` prefix, which Python also
tolerates, are not modelled; no claim depends on them.) -/
def parseHexIntPy (s : ByteStr) : Option Int :=
  match s with
  | 45 :: rest => (parseHexDigits rest).map (fun n => -(n : Int))
  | _ => (parseHexDigits s).map (fun n => (n : Int))

/-- Accumulating parser for a nonempty run of decimal digits. -/
def parseDecAux (acc : Nat) : ByteStr → Option Nat
  | [] => some acc
  | b :: rest =>
    match decVal b with
    | none => none
    | some v => parseDecAux (acc * 10 + v) rest

/-- Modelled from the spec: the Content-Length value parse — the spec requires
a non-negative integer, so only a nonempty run of decimal digits is accepted;
anything else fails (the 400 path). -/
def parseDecimal (s : ByteStr) : Option Nat :=
  match s with
  | [] => none
  | _ => parseDecAux 0 s

/-- The ASCII code of the hex digit for a value below 16 (lowercase letters,
as Python `"%x"` formatting produces). -/
def hexDigit (v : Nat) : Nat := if v < 10 then 48 + v else 87 + v

/-- Fuel-driven most-significant-first hex digit expansion of a positive
number. -/
def toHexAux : Nat → Nat → ByteStr
  | 0, _ => []
  | _ + 1, 0 => []
  | fuel + 1, n + 1 => toHexAux fuel ((n + 1) / 16) ++ [hexDigit ((n + 1) % 16)]

/-- Modelled from the spec: Python `b"%x" % n` for a natural number, the
chunk-size formatting used by the chunk encoder. -/
def toHexBytes (n : Nat) : ByteStr :=
  if n = 0 then [48] else toHexAux n n

/-- Fuel-driven most-significant-first decimal digit expansion. -/
def toDecAux : Nat → Nat → ByteStr
  | 0, _ => []
  | _ + 1, 0 => []
  | fuel + 1, n + 1 => toDecAux fuel ((n + 1) / 10) ++ [48 + (n + 1) % 10]

/-- Decimal rendering of a natural number as a byte string
(Python `intToBytes`). -/
def toDecBytes (n : Nat) : ByteStr :=
  if n = 0 then [48] else toDecAux n n

/-! ### Hex printing/parsing round trip -/

theorem parseHexAux_append (acc : Nat) (xs ys : ByteStr) :
    parseHexAux acc (xs ++ ys) =
      match parseHexAux acc xs with
      | none => none
      | some a => parseHexAux a ys := by
  induction xs generalizing acc with
  | nil => simp [parseHexAux]
  | cons b rest ih =>
    simp only [List.cons_append, parseHexAux]
    cases hexVal b with
    | none => simp
    | some v => simp [ih]

theorem hexVal_hexDigit (v : Nat) (h : v < 16) : hexVal (hexDigit v) = some v := by
  unfold hexDigit hexVal
  by_cases h1 : v < 10
  · rw [if_pos h1, if_pos (by omega), Option.some.injEq]
    omega
  · rw [if_neg h1, if_neg (by omega), if_pos (by omega), Option.some.injEq]
    omega

theorem toHexAux_parse (n : Nat) :
    ∀ fuel acc, n ≤ fuel →
      parseHexAux acc (toHexAux fuel n) = some (acc * 16 ^ (toHexAux fuel n).length + n) := by
  induction n using Nat.strong_induction_on with
  | _ n ih =>
    intro fuel acc hle
    match fuel, n with
    | 0, 0 => simp [toHexAux, parseHexAux]
    | 0, _ + 1 => omega
    | fuel + 1, 0 => simp [toHexAux, parseHexAux]
    | fuel + 1, n + 1 =>
      have hdiv : (n + 1) / 16 < n + 1 := Nat.div_lt_self (by omega) (by omega)
      have hrec := ih ((n + 1) / 16) hdiv fuel acc (by omega)
      simp only [toHexAux, parseHexAux_append, hrec, parseHexAux,
        hexVal_hexDigit ((n + 1) % 16) (Nat.mod_lt _ (by omega))]
      simp only [List.length_append, List.length_singleton]
      congr 1
      have := Nat.div_add_mod (n + 1) 16
      ring_nf
      omega

theorem toHexAux_mem (fuel n : Nat) :
    ∀ b ∈ toHexAux fuel n, ∃ v, v < 16 ∧ b = hexDigit v := by
  induction fuel generalizing n with
  | zero => simp [toHexAux]
  | succ fuel ih =>
    match n with
    | 0 => simp [toHexAux]
    | n + 1 =>
      intro b hb
      simp only [toHexAux, List.mem_append, List.mem_singleton] at hb
      rcases hb with hb | hb
      · exact ih _ b hb
      · exact ⟨(n + 1) % 16, Nat.mod_lt _ (by omega), hb⟩

theorem toHexBytes_mem (n : Nat) :
    ∀ b ∈ toHexBytes n, ∃ v, v < 16 ∧ b = hexDigit v := by
  unfold toHexBytes
  split
  · intro b hb
    simp only [List.mem_singleton] at hb
    exact ⟨0, by omega, by simp [hb, hexDigit]⟩
  · exact toHexAux_mem n n

theorem toHexBytes_no_cr (n : Nat) : ∀ b ∈ toHexBytes n, b ≠ CR := by
  intro b hb
  obtain ⟨v, hv, rfl⟩ := toHexBytes_mem n b hb
  unfold hexDigit CR
  split <;> omega

theorem toHexBytes_ne_nil (n : Nat) : toHexBytes n ≠ [] := by
  unfold toHexBytes
  split
  · simp
  · rename_i h
    cases n with
    | zero => exact absurd rfl h
    | succ m => simp [toHexAux]

theorem parseHexDigits_toHexBytes (n : Nat) :
    parseHexDigits (toHexBytes n) = some n := by
  cases n with
  | zero => decide
  | succ m =>
    have hne : toHexAux (m + 1) (m + 1) ≠ [] := by simp [toHexAux]
    unfold parseHexDigits toHexBytes
    rw [if_neg (by omega)]
    split
    · next heq => exact absurd heq hne
    · rw [toHexAux_parse (m + 1) (m + 1) 0 (le_refl _)]
      simp

theorem toHexBytes_head_ne_minus (n : Nat) :
    ∀ l, toHexBytes n = 45 :: l → False := by
  intro l hl
  have h45 : 45 ∈ toHexBytes n := by rw [hl]; simp
  obtain ⟨v, hv, hd⟩ := toHexBytes_mem n 45 h45
  unfold hexDigit at hd
  split at hd <;> omega

theorem parseHexIntPy_toHexBytes (n : Nat) :
    parseHexIntPy (toHexBytes n) = some (n : Int) := by
  unfold parseHexIntPy
  split
  · rename_i rest heq
    exact absurd heq (fun h => toHexBytes_head_ne_minus n rest h)
  · rw [parseHexDigits_toHexBytes]
    rfl

/-! ### Python error values -/

/-- The Python exception kinds the modelled code can raise. -/
inductive PyError
  | valueError
  | typeError
  | runtimeError
  | dataLoss
  | potentialDataLoss
  deriving DecidableEq, Repr

/-- Decidable equality of `Except` results, so that concrete runs can be
checked computationally. -/
instance exceptDecEq {ε α : Type} [DecidableEq ε] [DecidableEq α] :
    DecidableEq (Except ε α) := fun x y =>
  match x, y with
  | .error a, .error b =>
    if h : a = b then .isTrue (by rw [h]) else .isFalse (by simp [h])
  | .error _, .ok _ => .isFalse (by simp)
  | .ok _, .error _ => .isFalse (by simp)
  | .ok a, .ok b =>
    if h : a = b then .isTrue (by rw [h]) else .isFalse (by simp [h])

/-! ### Chunk encoding and decoding (`toChunk` / `fromChunk`) -/

/-- Modelled from the spec: `toChunk` of `twisted.web.http` (implementation
absent from src/) — chunk-encode a byte string as the hex length, CRLF, the
data, CRLF. -/
def toChunk (data : ByteStr) : List ByteStr :=
  [toHexBytes data.length, CRLF, data, CRLF]

/-- The joined bytes of `toChunk` (Python `b"".join(toChunk(s))`). -/
def joinChunk (data : ByteStr) : ByteStr := (toChunk data).flatten

/-- Modelled from the spec: `fromChunk` of `twisted.web.http` (implementation
absent from src/) — split the stream at the first CRLF, convert the prefix
with `int(_, 16)`, fail on a negative declared length, require CRLF right
after the declared extent, and return the chunk data together with the bytes
that follow. -/
def fromChunk (data : ByteStr) : Except PyError (ByteStr × ByteStr) :=
  match splitCRLF data with
  | none => .error .valueError
  | some (pre, rest) =>
    match parseHexIntPy pre with
    | none => .error .valueError
    | some length =>
      if length < 0 then .error .valueError
      else
        if (rest.drop length.toNat).take 2 ≠ CRLF then .error .valueError
        else .ok (rest.take length.toNat, rest.drop (length.toNat + 2))

theorem splitCRLF_append (l r : ByteStr) (h : splitCRLF l = none) :
    splitCRLF (l ++ CR :: LF :: r) = some (l, r) := by
  induction l with
  | nil => simp [splitCRLF, CR, LF]
  | cons hd tl ih =>
    cases tl with
    | nil =>
      simp only [List.cons_append, List.nil_append, splitCRLF]
      have hne : ¬(hd = CR ∧ CR = LF) := by
        intro hc
        exact absurd hc.2 (by decide)
      rw [if_neg hne]
      simp [splitCRLF, CR, LF]
    | cons hd2 tl2 =>
      simp only [splitCRLF] at h
      by_cases hpair : hd = CR ∧ hd2 = LF
      · rw [if_pos hpair] at h
        exact absurd h (by simp)
      · rw [if_neg hpair] at h
        simp only [List.cons_append, splitCRLF, if_neg hpair]
        have htl : splitCRLF (hd2 :: tl2) = none := by
          revert h
          cases hsp : splitCRLF (hd2 :: tl2) with
          | none => intro _; rfl
          | some p => intro h; exact absurd h (by simp)
        have ih2 := ih htl
        rw [List.cons_append] at ih2
        simp only [List.append_eq]
        rw [ih2]

theorem splitCRLF_none_of_no_cr (l : ByteStr) (h : ∀ b ∈ l, b ≠ CR) :
    splitCRLF l = none := by
  induction l with
  | nil => rfl
  | cons hd tl ih =>
    cases tl with
    | nil => rfl
    | cons hd2 tl2 =>
      simp only [splitCRLF]
      have hhd : hd ≠ CR := h hd (by simp)
      rw [if_neg (by intro hc; exact hhd hc.1)]
      rw [ih (fun b hb => h b (List.mem_cons_of_mem _ hb))]

/-- C4: joining the output of `toChunk s` and applying `fromChunk` yields
exactly `(s, b"")`; `fromChunk` on a chunk stream with a negative declared
length (`b"-5\r\nmalformed!\r\n"`) fails with a `ValueError`. -/
theorem c4_chunk_roundtrip_and_negative :
    (∀ s : ByteStr, fromChunk (joinChunk s) = .ok (s, ([] : ByteStr)))
    ∧ fromChunk (bs "-5\r\nmalformed!\r\n") = .error .valueError := by
  constructor
  · intro s
    have hjoin : joinChunk s = toHexBytes s.length ++ CR :: LF :: (s ++ CR :: LF :: []) := by
      simp [joinChunk, toChunk, CRLF]
    have hsplit := splitCRLF_append (toHexBytes s.length) (s ++ CR :: LF :: [])
      (splitCRLF_none_of_no_cr _ (toHexBytes_no_cr s.length))
    unfold fromChunk
    rw [hjoin, hsplit]
    simp only [parseHexIntPy_toHexBytes]
    rw [if_neg (by omega)]
    have hdrop : (s ++ CR :: LF :: []).drop ((s.length : Int).toNat) = CR :: LF :: [] := by
      simp
    rw [hdrop]
    have htake : (s ++ CR :: LF :: []).take ((s.length : Int).toNat) = s := by
      simp
    have hdrop2 : (s ++ CR :: LF :: []).drop ((s.length : Int).toNat + 2) = [] := by
      rw [show (s.length : Int).toNat + 2 = (s ++ CR :: LF :: []).length from by simp]
      exact List.drop_length _
    rw [if_neg (by simp [CRLF]), htake, hdrop2]
  · rfl

/-! ### The header container -/

/-- Modelled from the spec: the ordered, case-insensitive header multi-map
(`twisted.web.http_headers.Headers`, absent from src/).  Keys are stored
lowercased, in first-insertion order; each key maps to its ordered list of raw
values. -/
structure Headers where
  entries : List (ByteStr × List ByteStr)
  deriving DecidableEq, Repr

/-- A container with no headers. -/
def Headers.empty : Headers := ⟨[]⟩

/-- Replace the values of a key in an association list, keeping its
position; append a new entry when the key is absent. -/
def setEntries (key : ByteStr) (vals : List ByteStr) :
    List (ByteStr × List ByteStr) → List (ByteStr × List ByteStr)
  | [] => [(key, vals)]
  | (k, v) :: rest =>
    if k = key then (k, vals) :: rest else (k, v) :: setEntries key vals rest

/-- Append one value to the entry of a key in an association list; append a
new entry when the key is absent. -/
def addEntry (key : ByteStr) (value : ByteStr) :
    List (ByteStr × List ByteStr) → List (ByteStr × List ByteStr)
  | [] => [(key, [value])]
  | (k, vs) :: rest =>
    if k = key then (k, vs ++ [value]) :: rest else (k, vs) :: addEntry key value rest

/-- Look up the values of a key in an association list. -/
def lookupEntries (key : ByteStr) :
    List (ByteStr × List ByteStr) → Option (List ByteStr)
  | [] => none
  | (k, vs) :: rest => if k = key then some vs else lookupEntries key rest

/-- `Headers.getRawHeaders`: case-insensitive lookup of all raw values. -/
def Headers.getRawHeaders (h : Headers) (name : ByteStr) : Option (List ByteStr) :=
  lookupEntries (lowerBytes name) h.entries

/-- `Headers.setRawHeaders`: replace all values of a header. -/
def Headers.setRawHeaders (h : Headers) (name : ByteStr) (vals : List ByteStr) : Headers :=
  ⟨setEntries (lowerBytes name) vals h.entries⟩

/-- `Headers.addRawHeader`: add one more raw value for a header. -/
def Headers.addRawHeader (h : Headers) (name : ByteStr) (value : ByteStr) : Headers :=
  ⟨addEntry (lowerBytes name) value h.entries⟩

/-- Uppercase the first byte of a byte string (Python `bytes.capitalize` on an
already lowercased word). -/
def capitalizeBytes (s : ByteStr) : ByteStr :=
  match s with
  | [] => []
  | b :: rest => (if 97 ≤ b ∧ b ≤ 122 then b - 32 else b) :: rest

/-- The canonical serialization capitalization of a (lowercased) header name:
each dash-separated word capitalized, e.g. `content-length` to
`Content-Length`. -/
def canonicalHeaderName (name : ByteStr) : ByteStr :=
  List.intercalate [45] ((name.splitOn 45).map capitalizeBytes)

/-- `Headers.getAllRawHeaders`: all entries, with canonicalized name casing,
in insertion order. -/
def Headers.getAllRawHeaders (h : Headers) : List (ByteStr × List ByteStr) :=
  h.entries.map (fun e => (canonicalHeaderName e.1, e.2))

/-! ### The parsed request data and its header accessors -/

/-- The parsed request as handed to the per-request handler: method, URI,
protocol version, request headers and the accumulated body bytes. -/
structure ReqData where
  method : ByteStr
  uri : ByteStr
  clientproto : ByteStr
  requestHeaders : Headers
  content : ByteStr
  deriving DecidableEq, Repr

/-- Modelled from the spec: `Request.getHeader` — the last raw value of the
named request header, or none when the header is absent. -/
def ReqData.getHeader (r : ReqData) (key : ByteStr) : Option ByteStr :=
  match r.requestHeaders.getRawHeaders key with
  | none => none
  | some vals => vals.getLast?

/-- Modelled from the spec: `Request.getAllHeaders` — a dictionary mapping
each lowercased request header name to its last value. -/
def ReqData.getAllHeaders (r : ReqData) : List (ByteStr × ByteStr) :=
  r.requestHeaders.entries.filterMap
    (fun e => (e.2.getLast?).map (fun v => (e.1, v)))

/-- A request value with the given request headers and no other data, as the
header-accessor tests build (`http.Request(DummyChannel(), False)`). -/
def mkHeaderRequest (h : Headers) : ReqData :=
  ⟨[], [], [], h, []⟩

theorem lookupEntries_set (key : ByteStr) (vals : List ByteStr)
    (es : List (ByteStr × List ByteStr)) :
    lookupEntries key (setEntries key vals es) = some vals := by
  induction es with
  | nil => simp [setEntries, lookupEntries]
  | cons e rest ih =>
    obtain ⟨k, v⟩ := e
    by_cases hk : k = key
    · simp [setEntries, lookupEntries, hk]
    · simp [setEntries, lookupEntries, hk, ih]

theorem assocLookup_filterMap_set (key : ByteStr) (vals : List ByteStr)
    (v : ByteStr) (hval : vals.getLast? = some v)
    (es : List (ByteStr × List ByteStr)) :
    ((setEntries key vals es).filterMap
      (fun e => (e.2.getLast?).map (fun w => (e.1, w)))).lookup key = some v := by
  induction es with
  | nil => simp [setEntries, hval, List.lookup]
  | cons e rest ih =>
    obtain ⟨k, vs⟩ := e
    by_cases hk : k = key
    · simp [setEntries, hk, hval, List.lookup]
    · simp only [setEntries, if_neg hk, List.filterMap_cons]
      cases hlast : vs.getLast? with
      | none => simpa using ih
      | some w =>
        simp only [Option.map_some']
        have hbeq : (key == k) = false := by
          rw [beq_eq_false_iff_ne]
          exact fun hkey => hk hkey.symm
        rw [List.lookup, hbeq]
        exact ih

/-- C10: when a request header has several raw values, `getHeader` returns
the last value in insertion order, `getAllHeaders` maps the name to only the
last value, and `getHeader` returns none (not an error) for an absent
header. -/
theorem c10_getHeader_last_value :
    (∀ (h : Headers) (name : ByteStr) (vs : List ByteStr) (v : ByteStr),
      (mkHeaderRequest (h.setRawHeaders name (vs ++ [v]))).getHeader name = some v)
    ∧ (∀ (h : Headers) (name : ByteStr) (vs : List ByteStr) (v : ByteStr),
      ((mkHeaderRequest (h.setRawHeaders name (vs ++ [v]))).getAllHeaders).lookup
        (lowerBytes name) = some v)
    ∧ (∀ name : ByteStr, (mkHeaderRequest Headers.empty).getHeader name = none) := by
  refine ⟨?_, ?_, ?_⟩
  · intro h name vs v
    simp [mkHeaderRequest, ReqData.getHeader, Headers.getRawHeaders,
      Headers.setRawHeaders, lookupEntries_set]
  · intro h name vs v
    unfold mkHeaderRequest ReqData.getAllHeaders Headers.setRawHeaders
    exact assocLookup_filterMap_set _ _ v (by simp) h.entries
  · intro name
    rfl

/-! ### The persistence decision -/

/-- The lowercased space-separated tokens of the request's first `Connection`
header value (Python `connection[0].split(b" ")`), or no tokens when the
header is absent. -/
def connectionTokens (reqHeaders : Headers) : List ByteStr :=
  match reqHeaders.getRawHeaders (bs "connection") with
  | some (v :: _) => (v.splitOn 32).map lowerBytes
  | _ => []

/-- Modelled from the spec: `HTTPChannel.checkPersistence` (implementation
absent from src/) — evaluated once per request from the request's own
`Connection` header and protocol version.  HTTP/1.0 and HTTP/0.9 are never
persistent and the response headers are untouched; HTTP/1.1 is persistent
unless a `close` connection token is present, in which case the response
headers are annotated with `Connection: close` and the result is
non-persistent.  The result pairs the persistence flag with the updated
response headers. -/
def checkPersistence (reqHeaders : Headers) (respHeaders : Headers)
    (version : ByteStr) : Bool × Headers :=
  if version = bs "HTTP/1.1" then
    if bs "close" ∈ connectionTokens reqHeaders then
      (false, respHeaders.setRawHeaders (bs "connection") [bs "close"])
    else (true, respHeaders)
  else (false, respHeaders)

/-- C3: `checkPersistence` returns false for HTTP/0.9 and HTTP/1.0 requests
without touching the response headers; returns true for an HTTP/1.1 request
without a `Connection: close` token; and for an HTTP/1.1 request carrying
`Connection: close` returns false and adds exactly the response header
`Connection: close`. -/
theorem c3_checkPersistence :
    (∀ (hs rh : Headers), checkPersistence hs rh (bs "HTTP/0.9") = (false, rh))
    ∧ (∀ (hs rh : Headers), checkPersistence hs rh (bs "HTTP/1.0") = (false, rh))
    ∧ (∀ (hs rh : Headers), bs "close" ∉ connectionTokens hs →
        checkPersistence hs rh (bs "HTTP/1.1") = (true, rh))
    ∧ (∀ hs : Headers, bs "close" ∈ connectionTokens hs →
        checkPersistence hs Headers.empty (bs "HTTP/1.1")
          = (false, ⟨[(bs "connection", [bs "close"])]⟩)) := by
  refine ⟨?_, ?_, ?_, ?_⟩
  · intro hs rh
    unfold checkPersistence
    rw [if_neg (by decide)]
  · intro hs rh
    unfold checkPersistence
    rw [if_neg (by decide)]
  · intro hs rh hcl
    unfold checkPersistence
    rw [if_pos rfl, if_neg hcl]
  · intro hs hcl
    unfold checkPersistence
    rw [if_pos rfl, if_pos hcl]
    rfl

/-- Witness for C3 at concrete inputs: an empty header set has no close
token, and a header set carrying `Connection: close` has one. -/
theorem c3_checkPersistence_witness :
    checkPersistence Headers.empty Headers.empty (bs "HTTP/1.1")
        = (true, Headers.empty)
    ∧ checkPersistence (Headers.empty.setRawHeaders (bs "connection") [bs "close"])
        Headers.empty (bs "HTTP/1.1")
        = (false, ⟨[(bs "connection", [bs "close"])]⟩) :=
  ⟨c3_checkPersistence.2.2.1 Headers.empty Headers.empty (by decide),
   c3_checkPersistence.2.2.2 _ (by decide)⟩

/-! ### The identity transfer decoder -/

/-- Modelled from the spec: the state of `_IdentityTransferDecoder` — the
remaining content length (none when the length is unknown) and whether the
decoder has finished (its callbacks detached). -/
structure IdentityDecoder where
  contentLength : Option Nat
  done : Bool
  deriving DecidableEq, Repr

/-- A fresh identity decoder for a known or unknown content length. -/
def mkIdentity (contentLength : Option Nat) : IdentityDecoder :=
  ⟨contentLength, false⟩

/-- Modelled from the spec: `_IdentityTransferDecoder.dataReceived`.  After
finishing it raises `RuntimeError`; with unknown length all bytes go to the
data callback; with known length bytes are forwarded up to the remaining
count, and on reaching it the completion callback receives the excess bytes
as residual.  The result is the new state, the bytes passed to the data
callback, and the residual passed to the completion callback when it fires. -/
def IdentityDecoder.dataReceived (d : IdentityDecoder) (data : ByteStr) :
    Except PyError (IdentityDecoder × ByteStr × Option ByteStr) :=
  if d.done then .error .runtimeError
  else match d.contentLength with
    | none => .ok (d, data, none)
    | some r =>
      if data.length < r then .ok (⟨some (r - data.length), false⟩, data, none)
      else .ok (⟨some 0, true⟩, data.take r, some (data.drop r))

/-- Modelled from the spec: `_IdentityTransferDecoder.noMoreData` — the
connection closed with no more bytes forthcoming.  A duplicate call (after
the callbacks were detached) returns silently; with unknown length the
completion callback fires with an empty residual and `PotentialDataLoss` is
raised; with a known, not yet exhausted length `_DataLoss` is raised; with
the length exhausted no error is raised.  The result is the new state, the
residual passed to the completion callback when it fires, and the raised
error if any. -/
def IdentityDecoder.noMoreData (d : IdentityDecoder) :
    IdentityDecoder × Option ByteStr × Option PyError :=
  if d.done then (⟨d.contentLength, true⟩, none, none)
  else match d.contentLength with
    | none => (⟨none, true⟩, some [], some .potentialDataLoss)
    | some r =>
      if r ≠ 0 then (⟨some r, true⟩, none, some .dataLoss)
      else (⟨some 0, true⟩, none, none)

/-- C7: the identity decoder `noMoreData` trichotomy.  After delivering fewer
bytes than a known content length, `noMoreData` raises `_DataLoss`; with an
unknown content length it fires the completion callback with an empty
residual and raises `PotentialDataLoss`; after delivering exactly the known
content length it raises nothing. -/
theorem identity_dataReceived_lt (n : Nat) (data : ByteStr)
    (h : data.length < n) :
    (mkIdentity (some n)).dataReceived data
      = .ok (⟨some (n - data.length), false⟩, data, none) := by
  unfold mkIdentity IdentityDecoder.dataReceived
  simp [h]

theorem identity_dataReceived_exact (n : Nat) (data : ByteStr)
    (h : data.length = n) :
    (mkIdentity (some n)).dataReceived data
      = .ok (⟨some 0, true⟩, data.take n, some (data.drop n)) := by
  unfold mkIdentity IdentityDecoder.dataReceived
  subst h
  simp

theorem c7_identity_noMoreData_trichotomy :
    (∀ (n : Nat) (data : ByteStr), data.length < n →
      ∀ d out fin, (mkIdentity (some n)).dataReceived data = .ok (d, out, fin) →
        d.noMoreData = (⟨some (n - data.length), true⟩, none, some .dataLoss))
    ∧ (mkIdentity none).noMoreData = (⟨none, true⟩, some [], some .potentialDataLoss)
    ∧ (∀ (n : Nat) (data : ByteStr), data.length = n →
      ∀ d out fin, (mkIdentity (some n)).dataReceived data = .ok (d, out, fin) →
        d.noMoreData.2.2 = none) := by
  refine ⟨?_, rfl, ?_⟩
  · intro n data hlt d out fin hrecv
    rw [identity_dataReceived_lt n data hlt] at hrecv
    simp only [Except.ok.injEq, Prod.mk.injEq] at hrecv
    obtain ⟨hd, -, -⟩ := hrecv
    subst hd
    unfold IdentityDecoder.noMoreData
    simp only
    rw [if_neg (show ¬(false = true) by simp)]
    rw [if_pos (show n - data.length ≠ 0 by omega)]
  · intro n data hlen d out fin hrecv
    rw [identity_dataReceived_exact n data hlen] at hrecv
    simp only [Except.ok.injEq, Prod.mk.injEq] at hrecv
    obtain ⟨hd, -, -⟩ := hrecv
    subst hd
    rfl

/-- Witness for C7 at concrete inputs: nine bytes of a ten-byte body, then a
fresh unknown-length decoder, then exactly ten bytes of a ten-byte body. -/
theorem c7_identity_noMoreData_trichotomy_witness :
    (∃ d out fin, (mkIdentity (some 10)).dataReceived (bs "xxxxxxxxx") = .ok (d, out, fin)
      ∧ d.noMoreData = (⟨some 1, true⟩, none, some .dataLoss))
    ∧ (∃ d out fin, (mkIdentity (some 10)).dataReceived (bs "xxxxxxxxxx") = .ok (d, out, fin)
      ∧ d.noMoreData.2.2 = none) := by
  constructor
  · refine ⟨⟨some 1, false⟩, bs "xxxxxxxxx", none, by decide, ?_⟩
    have := c7_identity_noMoreData_trichotomy.1 10 (bs "xxxxxxxxx") (by decide)
      ⟨some 1, false⟩ (bs "xxxxxxxxx") none (by decide)
    simpa using this
  · refine ⟨⟨some 0, true⟩, bs "xxxxxxxxxx", some [], by decide, ?_⟩
    exact c7_identity_noMoreData_trichotomy.2.2 10 (bs "xxxxxxxxxx") (by decide)
      ⟨some 0, true⟩ (bs "xxxxxxxxxx") (some []) (by decide)

/-! ### The chunked transfer decoder -/

/-- The states of the chunked decoder: reading a chunk-size line, forwarding
a chunk body with some bytes remaining, expecting the CRLF after a chunk
body, consuming the trailer section, or finished. -/
inductive CState
  | chunkLength
  | body (remaining : Nat)
  | crlf
  | trailer
  | finished
  deriving DecidableEq, Repr

/-- Modelled from the spec: the state of `_ChunkedTransferDecoder` — the
framing state together with the residual buffered bytes that do not yet form
a complete framing unit. -/
structure ChunkedDecoder where
  state : CState
  buf : ByteStr
  deriving DecidableEq, Repr

/-- A fresh chunked decoder. -/
def mkChunked : ChunkedDecoder := ⟨.chunkLength, []⟩

/-- Modelled from the spec: the chunk-size line parse — hexadecimal digits
before optional `;`-delimited chunk extensions (parsed but discarded); a
non-hexadecimal (or negative) size field is malformed. -/
def parseChunkSize (line : ByteStr) : Option Nat :=
  match parseHexIntPy ((line.splitOn 59).headI) with
  | some n => if n < 0 then none else some n.toNat
  | none => none

/-- The outcome of one `dataReceived` call on the chunked decoder: the new
framing state and buffer, the joined bytes passed to the data callback, the
residual passed to the completion callback when it fires, and the raised
error if any. -/
structure ChunkStep where
  state : CState
  buf : ByteStr
  out : ByteStr
  fin : Option ByteStr
  err : Option PyError
  deriving DecidableEq, Repr

/-- Modelled from the spec: the working loop of
`_ChunkedTransferDecoder.dataReceived` — repeatedly consume complete framing
units from the working data until the data is exhausted, a partial unit has
to be buffered, the terminating empty trailer line fires the completion
callback with the remaining bytes as residual, a malformed chunk-size line
raises, or more data arrives after the finished state (a `RuntimeError`).
Fuel-driven; `2 * length + 2` fuel always suffices. -/
def drainChunked : Nat → CState → ByteStr → ChunkStep
  | 0, st, data => ⟨st, data, [], none, none⟩
  | fuel + 1, st, data =>
    if data = [] then ⟨st, [], [], none, none⟩
    else
      match st with
      | .chunkLength =>
        match splitCRLF data with
        | none => ⟨.chunkLength, data, [], none, none⟩
        | some (line, rest) =>
          match parseChunkSize line with
          | none => ⟨.chunkLength, [], [], none, some .valueError⟩
          | some 0 => drainChunked fuel .trailer rest
          | some (n + 1) => drainChunked fuel (.body (n + 1)) rest
      | .body r =>
        if r ≤ data.length then
          let res := drainChunked fuel .crlf (data.drop r)
          { res with out := data.take r ++ res.out }
        else ⟨.body (r - data.length), [], data, none, none⟩
      | .crlf =>
        match data with
        | b0 :: b1 :: rest =>
          if b0 = CR ∧ b1 = LF then drainChunked fuel .chunkLength rest
          else ⟨.crlf, data, [], none, none⟩
        | _ => ⟨.crlf, data, [], none, none⟩
      | .trailer =>
        match splitCRLF data with
        | none => ⟨.trailer, data, [], none, none⟩
        | some ([], rest) => ⟨.finished, [], [], some rest, none⟩
        | some (_ :: _, rest) => drainChunked fuel .trailer rest
      | .finished => ⟨.finished, [], [], none, some .runtimeError⟩

/-- The fuel that always suffices for `drainChunked`: twice the data length
plus a constant, with one extra unit for the zero-byte `body`-to-`crlf`
transition. -/
def chunkMeasure (st : CState) (data : ByteStr) : Nat :=
  2 * data.length + (match st with | .body _ => 1 | _ => 0)

/-- Modelled from the spec: `_ChunkedTransferDecoder.dataReceived` — prepend
the buffered residue, then run the consuming loop. -/
def ChunkedDecoder.dataReceived (d : ChunkedDecoder) (data : ByteStr) :
    ChunkedDecoder × ByteStr × Option ByteStr × Option PyError :=
  let full := d.buf ++ data
  let r := drainChunked (2 * full.length + 2) d.state full
  (⟨r.state, r.buf⟩, r.out, r.fin, r.err)

/-- Modelled from the spec: `_ChunkedTransferDecoder.noMoreData` — raises a
data-loss error unless the decoder has reached the finished state (so a
completion callback calling it re-entrantly sees no failure). -/
def ChunkedDecoder.noMoreData (d : ChunkedDecoder) : Option PyError :=
  if d.state = .finished then none else some .dataLoss

theorem chunkMeasure_chunkLength (d : ByteStr) :
    chunkMeasure .chunkLength d = 2 * d.length := rfl

theorem chunkMeasure_body (r : Nat) (d : ByteStr) :
    chunkMeasure (.body r) d = 2 * d.length + 1 := rfl

theorem chunkMeasure_crlf (d : ByteStr) :
    chunkMeasure .crlf d = 2 * d.length := rfl

theorem chunkMeasure_trailer (d : ByteStr) :
    chunkMeasure .trailer d = 2 * d.length := rfl

theorem chunkMeasure_finished (d : ByteStr) :
    chunkMeasure .finished d = 2 * d.length := rfl

theorem splitCRLF_length (data : ByteStr) :
    ∀ l r, splitCRLF data = some (l, r) → data.length = l.length + 2 + r.length := by
  induction data with
  | nil => intro l r h; simp [splitCRLF] at h
  | cons b0 tl ih =>
    intro l r h
    cases tl with
    | nil => simp [splitCRLF] at h
    | cons b1 rest =>
      simp only [splitCRLF] at h
      by_cases hpair : b0 = CR ∧ b1 = LF
      · rw [if_pos hpair] at h
        simp only [Option.some.injEq, Prod.mk.injEq] at h
        obtain ⟨hl, hr⟩ := h
        subst hl; subst hr
        simp
        omega
      · rw [if_neg hpair] at h
        cases hsp : splitCRLF (b1 :: rest) with
        | none => rw [hsp] at h; simp at h
        | some p =>
          obtain ⟨l2, r2⟩ := p
          rw [hsp] at h
          simp only [Option.some.injEq, Prod.mk.injEq] at h
          obtain ⟨hl, hr⟩ := h
          subst hl; subst hr
          have := ih l2 r2 hsp
          simp at this ⊢
          omega

theorem splitCRLF_some_append (data : ByteStr) :
    ∀ l r b, splitCRLF data = some (l, r) →
      splitCRLF (data ++ b) = some (l, r ++ b) := by
  induction data with
  | nil => intro l r b h; simp [splitCRLF] at h
  | cons b0 tl ih =>
    intro l r b h
    cases tl with
    | nil => simp [splitCRLF] at h
    | cons b1 rest =>
      simp only [splitCRLF] at h
      simp only [List.cons_append, splitCRLF]
      by_cases hpair : b0 = CR ∧ b1 = LF
      · rw [if_pos hpair] at h ⊢
        simp only [Option.some.injEq, Prod.mk.injEq] at h
        obtain ⟨hl, hr⟩ := h
        subst hl; subst hr
        rfl
      · rw [if_neg hpair] at h ⊢
        cases hsp : splitCRLF (b1 :: rest) with
        | none => rw [hsp] at h; simp at h
        | some p =>
          obtain ⟨l2, r2⟩ := p
          rw [hsp] at h
          simp only [Option.some.injEq, Prod.mk.injEq] at h
          obtain ⟨hl, hr⟩ := h
          subst hl; subst hr
          have happ := ih l2 r2 b hsp
          rw [List.cons_append] at happ
          simp only [List.append_eq]
          rw [happ]

theorem drainChunked_fuel_eq (m : Nat) :
    ∀ (st : CState) (data : ByteStr) (f1 f2 : Nat),
      chunkMeasure st data ≤ m → chunkMeasure st data ≤ f1 →
      chunkMeasure st data ≤ f2 →
      drainChunked f1 st data = drainChunked f2 st data := by
  induction m using Nat.strong_induction_on with
  | _ m ih =>
    intro st data f1 f2 hm h1 h2
    by_cases hdata : data = []
    · subst hdata
      cases f1 <;> cases f2 <;> simp [drainChunked]
    · have hlen : 1 ≤ data.length := by
        cases data with
        | nil => exact absurd rfl hdata
        | cons a l => simp
      have hmlb : 2 ≤ chunkMeasure st data := by
        unfold chunkMeasure
        have : 2 ≤ 2 * data.length := by omega
        omega
      obtain ⟨g1, rfl⟩ : ∃ g1, f1 = g1 + 1 := ⟨f1 - 1, by omega⟩
      obtain ⟨g2, rfl⟩ : ∃ g2, f2 = g2 + 1 := ⟨f2 - 1, by omega⟩
      cases st with
      | chunkLength =>
        rw [chunkMeasure_chunkLength] at hm h1 h2
        simp only [drainChunked, if_neg hdata]
        split
        · rfl
        · rename_i line rest hsp
          have hlsp := splitCRLF_length data line rest hsp
          split
          · rfl
          · exact ih (chunkMeasure .trailer rest)
              (by rw [chunkMeasure_trailer]; omega) .trailer rest g1 g2
              (le_refl _) (by rw [chunkMeasure_trailer]; omega)
              (by rw [chunkMeasure_trailer]; omega)
          · rename_i k hk
            exact ih (chunkMeasure (.body (k + 1)) rest)
              (by rw [chunkMeasure_body]; omega) (.body (k + 1)) rest g1 g2
              (le_refl _) (by rw [chunkMeasure_body]; omega)
              (by rw [chunkMeasure_body]; omega)
      | body r =>
        rw [chunkMeasure_body] at hm h1 h2
        simp only [drainChunked, if_neg hdata]
        by_cases hr : r ≤ data.length
        · rw [if_pos hr, if_pos hr]
          have hrec := ih (chunkMeasure .crlf (data.drop r))
            (by rw [chunkMeasure_crlf]; simp; omega) .crlf (data.drop r) g1 g2
            (le_refl _) (by rw [chunkMeasure_crlf]; simp; omega)
            (by rw [chunkMeasure_crlf]; simp; omega)
          rw [hrec]
        · rw [if_neg hr, if_neg hr]
      | crlf =>
        rw [chunkMeasure_crlf] at hm h1 h2
        rcases data with - | ⟨b0, tl⟩
        · exact absurd rfl hdata
        · rcases tl with - | ⟨b1, rest⟩
          · simp [drainChunked]
          · simp only [List.length_cons] at hm h1 h2
            simp only [drainChunked, if_neg hdata]
            by_cases hpair : b0 = CR ∧ b1 = LF
            · rw [if_pos hpair, if_pos hpair]
              exact ih (chunkMeasure .chunkLength rest)
                (by rw [chunkMeasure_chunkLength]; omega)
                .chunkLength rest g1 g2 (le_refl _)
                (by rw [chunkMeasure_chunkLength]; omega)
                (by rw [chunkMeasure_chunkLength]; omega)
            · rw [if_neg hpair, if_neg hpair]
      | trailer =>
        rw [chunkMeasure_trailer] at hm h1 h2
        simp only [drainChunked, if_neg hdata]
        split
        · rfl
        · rfl
        · rename_i c ctl rest hsp
          have hlsp := splitCRLF_length data (c :: ctl) rest hsp
          simp only [List.length_cons] at hlsp
          exact ih (chunkMeasure .trailer rest)
            (by rw [chunkMeasure_trailer]; omega) .trailer rest g1 g2
            (le_refl _) (by rw [chunkMeasure_trailer]; omega)
            (by rw [chunkMeasure_trailer]; omega)
      | finished =>
        simp only [drainChunked, if_neg hdata]

/-- The canonical (fuel-saturated) drain of the chunked decoder loop. -/
def drainC (st : CState) (data : ByteStr) : ChunkStep :=
  drainChunked (chunkMeasure st data) st data

theorem drainChunked_eq_drainC (f : Nat) (st : CState) (data : ByteStr)
    (hf : chunkMeasure st data ≤ f) : drainChunked f st data = drainC st data :=
  drainChunked_fuel_eq (chunkMeasure st data) st data f (chunkMeasure st data)
    (le_refl _) hf (le_refl _)

theorem dataReceived_eq_drainC (d : ChunkedDecoder) (data : ByteStr) :
    d.dataReceived data =
      (let r := drainC d.state (d.buf ++ data)
       (⟨r.state, r.buf⟩, r.out, r.fin, r.err)) := by
  have hf : chunkMeasure d.state (d.buf ++ data) ≤ 2 * (d.buf ++ data).length + 2 := by
    cases d.state with
    | chunkLength => rw [chunkMeasure_chunkLength]; omega
    | body r => rw [chunkMeasure_body]; omega
    | crlf => rw [chunkMeasure_crlf]; omega
    | trailer => rw [chunkMeasure_trailer]; omega
    | finished => rw [chunkMeasure_finished]; omega
  simp only [ChunkedDecoder.dataReceived]
  rw [drainChunked_eq_drainC _ _ _ hf]

theorem drainC_nil (st : CState) : drainC st [] = ⟨st, [], [], none, none⟩ := by
  unfold drainC
  cases h : chunkMeasure st [] with
  | zero => rfl
  | succ k => simp [drainChunked]

theorem drainC_cons_eq (st : CState) (data : ByteStr) (h : data ≠ []) :
    drainC st data = drainChunked (chunkMeasure st data - 1 + 1) st data := by
  unfold drainC
  have : 1 ≤ data.length := by
    cases data with
    | nil => exact absurd rfl h
    | cons a l => simp
  have hub : 1 ≤ chunkMeasure st data := by
    unfold chunkMeasure
    omega
  rw [show chunkMeasure st data - 1 + 1 = chunkMeasure st data from by omega]

theorem drainC_chunkLength_stall (data : ByteStr) (h : data ≠ [])
    (hsp : splitCRLF data = none) :
    drainC .chunkLength data = ⟨.chunkLength, data, [], none, none⟩ := by
  rw [drainC_cons_eq _ _ h]
  simp only [drainChunked, if_neg h, hsp]

theorem drainC_chunkLength_step (data line rest : ByteStr) (h : data ≠ [])
    (hsp : splitCRLF data = some (line, rest)) :
    drainC .chunkLength data =
      match parseChunkSize line with
      | none => ⟨.chunkLength, [], [], none, some .valueError⟩
      | some 0 => drainC .trailer rest
      | some (n + 1) => drainC (.body (n + 1)) rest := by
  have hlsp := splitCRLF_length data line rest hsp
  rw [drainC_cons_eq _ _ h]
  simp only [drainChunked, if_neg h, hsp]
  rw [chunkMeasure_chunkLength]
  cases parseChunkSize line with
  | none => rfl
  | some n =>
    cases n with
    | zero =>
      simp only
      exact drainChunked_eq_drainC _ _ _ (by rw [chunkMeasure_trailer]; omega)
    | succ k =>
      simp only
      exact drainChunked_eq_drainC _ _ _ (by rw [chunkMeasure_body]; omega)

theorem drainC_body_take (r : Nat) (data : ByteStr) (h : data ≠ [])
    (hr : r ≤ data.length) :
    drainC (.body r) data =
      (let res := drainC .crlf (data.drop r)
       { res with out := data.take r ++ res.out }) := by
  rw [drainC_cons_eq _ _ h]
  simp only [drainChunked, if_neg h, if_pos hr]
  rw [chunkMeasure_body]
  rw [drainChunked_eq_drainC _ _ _
    (by rw [chunkMeasure_crlf]; simp only [List.length_drop]; omega)]

theorem drainC_body_all (r : Nat) (data : ByteStr) (h : data ≠ [])
    (hr : data.length < r) :
    drainC (.body r) data = ⟨.body (r - data.length), [], data, none, none⟩ := by
  rw [drainC_cons_eq _ _ h]
  simp only [drainChunked, if_neg h]
  rw [if_neg (by omega)]

theorem drainC_crlf_pair (rest : ByteStr) :
    drainC .crlf (CR :: LF :: rest) = drainC .chunkLength rest := by
  have h1 : drainC .crlf (CR :: LF :: rest)
      = drainChunked (chunkMeasure .crlf (CR :: LF :: rest) - 1) .chunkLength rest := by
    rw [drainC_cons_eq _ _ (by simp)]
    rfl
  rw [h1]
  exact drainChunked_eq_drainC _ _ _
    (by rw [chunkMeasure_crlf, chunkMeasure_chunkLength]
        simp only [List.length_cons]
        omega)

theorem drainC_crlf_nopair (b0 b1 : Nat) (rest : ByteStr)
    (hpair : ¬(b0 = CR ∧ b1 = LF)) :
    drainC .crlf (b0 :: b1 :: rest) = ⟨.crlf, b0 :: b1 :: rest, [], none, none⟩ := by
  rw [drainC_cons_eq _ _ (by simp)]
  simp only [drainChunked]
  rw [if_neg (by simp), if_neg hpair]

theorem drainC_crlf_one (b0 : Nat) :
    drainC .crlf [b0] = ⟨.crlf, [b0], [], none, none⟩ := by
  rw [drainC_cons_eq _ _ (by simp)]
  simp [drainChunked]

theorem drainC_trailer_stall (data : ByteStr) (h : data ≠ [])
    (hsp : splitCRLF data = none) :
    drainC .trailer data = ⟨.trailer, data, [], none, none⟩ := by
  rw [drainC_cons_eq _ _ h]
  simp only [drainChunked, if_neg h, hsp]

theorem drainC_trailer_fin (data rest : ByteStr) (h : data ≠ [])
    (hsp : splitCRLF data = some ([], rest)) :
    drainC .trailer data = ⟨.finished, [], [], some rest, none⟩ := by
  rw [drainC_cons_eq _ _ h]
  simp only [drainChunked, if_neg h, hsp]

theorem drainC_trailer_line (data rest : ByteStr) (c : Nat) (ctl : ByteStr)
    (h : data ≠ []) (hsp : splitCRLF data = some (c :: ctl, rest)) :
    drainC .trailer data = drainC .trailer rest := by
  have hlsp := splitCRLF_length data (c :: ctl) rest hsp
  rw [drainC_cons_eq _ _ h]
  simp only [drainChunked, if_neg h, hsp]
  rw [chunkMeasure_trailer]
  exact drainChunked_eq_drainC _ _ _
    (by rw [chunkMeasure_trailer]; simp at hlsp; omega)

theorem drainC_finished (data : ByteStr) (h : data ≠ []) :
    drainC .finished data = ⟨.finished, [], [], none, some .runtimeError⟩ := by
  rw [drainC_cons_eq _ _ h]
  simp only [drainChunked, if_neg h]

theorem drainC_chunkLength_malformed (data line rest : ByteStr) (h : data ≠ [])
    (hsp : splitCRLF data = some (line, rest)) (hcs : parseChunkSize line = none) :
    drainC .chunkLength data = ⟨.chunkLength, [], [], none, some .valueError⟩ := by
  rw [drainC_chunkLength_step data line rest h hsp, hcs]

theorem drainC_chunkLength_zero (data line rest : ByteStr) (h : data ≠ [])
    (hsp : splitCRLF data = some (line, rest)) (hcs : parseChunkSize line = some 0) :
    drainC .chunkLength data = drainC .trailer rest := by
  rw [drainC_chunkLength_step data line rest h hsp, hcs]

theorem drainC_chunkLength_pos (data line rest : ByteStr) (n : Nat) (h : data ≠ [])
    (hsp : splitCRLF data = some (line, rest))
    (hcs : parseChunkSize line = some (n + 1)) :
    drainC .chunkLength data = drainC (.body (n + 1)) rest := by
  rw [drainC_chunkLength_step data line rest h hsp, hcs]

/-- A framing state with buffered bytes on which the consuming loop makes no
progress without new input. -/
def ChunkQuiescent (st : CState) (buf : ByteStr) : Prop :=
  drainC st buf = ⟨st, buf, [], none, none⟩

/-- The composition of a drain outcome with further input: an error outcome
absorbs it, a completed outcome appends it to the completion residual, and an
unfinished outcome continues draining from the buffered state. -/
def chunkCompose (r : ChunkStep) (b : ByteStr) : ChunkStep :=
  match r.err, r.fin with
  | some _, _ => r
  | none, some resid => { r with fin := some (resid ++ b) }
  | none, none =>
    ⟨(drainC r.state (r.buf ++ b)).state, (drainC r.state (r.buf ++ b)).buf,
     r.out ++ (drainC r.state (r.buf ++ b)).out,
     (drainC r.state (r.buf ++ b)).fin, (drainC r.state (r.buf ++ b)).err⟩

theorem drainC_extend (m : Nat) :
    ∀ (st : CState) (data b : ByteStr), chunkMeasure st data ≤ m →
      drainC st (data ++ b) = chunkCompose (drainC st data) b := by
  induction m using Nat.strong_induction_on with
  | _ m ih =>
    intro st data b hm
    by_cases hdata : data = []
    · subst hdata
      rw [drainC_nil]
      simp [chunkCompose]
    · have hlenpos : 1 ≤ data.length := by
        cases data with
        | nil => exact absurd rfl hdata
        | cons a l => simp
      have hdb : data ++ b ≠ [] := by simp [hdata]
      cases st with
      | chunkLength =>
        rw [chunkMeasure_chunkLength] at hm
        cases hsp : splitCRLF data with
        | none =>
          rw [drainC_chunkLength_stall data hdata hsp]
          simp [chunkCompose]
        | some p =>
          obtain ⟨line, rest⟩ := p
          have hlsp := splitCRLF_length data line rest hsp
          have hspb := splitCRLF_some_append data line rest b hsp
          cases hcs : parseChunkSize line with
          | none =>
            rw [drainC_chunkLength_malformed data line rest hdata hsp hcs,
              drainC_chunkLength_malformed (data ++ b) line (rest ++ b) hdb hspb hcs]
            rfl
          | some n =>
            cases n with
            | zero =>
              rw [drainC_chunkLength_zero data line rest hdata hsp hcs,
                drainC_chunkLength_zero (data ++ b) line (rest ++ b) hdb hspb hcs]
              exact ih (chunkMeasure .trailer rest)
                (by rw [chunkMeasure_trailer]; omega) .trailer rest b (le_refl _)
            | succ k =>
              rw [drainC_chunkLength_pos data line rest k hdata hsp hcs,
                drainC_chunkLength_pos (data ++ b) line (rest ++ b) k hdb hspb hcs]
              exact ih (chunkMeasure (.body (k + 1)) rest)
                (by rw [chunkMeasure_body]; omega) (.body (k + 1)) rest b (le_refl _)
      | body r =>
        rw [chunkMeasure_body] at hm
        by_cases hr : r ≤ data.length
        · rw [drainC_body_take r data hdata hr,
            drainC_body_take r (data ++ b) hdb (by simp; omega)]
          rw [List.take_append_of_le_length hr, List.drop_append_of_le_length hr]
          have hcont := ih (chunkMeasure .crlf (data.drop r))
            (by rw [chunkMeasure_crlf]; simp only [List.length_drop]; omega)
            .crlf (data.drop r) b (le_refl _)
          rw [hcont]
          simp only [chunkCompose]
          cases herr : (drainC .crlf (data.drop r)).err with
          | some e => simp [herr]
          | none =>
            cases hfin : (drainC .crlf (data.drop r)).fin with
            | some resid => simp [herr, hfin]
            | none => simp [herr, hfin]
        · have hltr : data.length < r := by omega
          rw [drainC_body_all r data hdata hltr]
          by_cases hrb : r ≤ (data ++ b).length
          · rw [drainC_body_take r (data ++ b) hdb hrb]
            have hble : b ≠ [] := by
              intro hb
              subst hb
              simp at hrb
              omega
            have hrb2 : r - data.length ≤ b.length := by simp at hrb; omega
            have htake : (data ++ b).take r = data ++ b.take (r - data.length) := by
              conv_lhs => rw [show r = data.length + (r - data.length) from by omega]
              exact List.take_append _
            have hdrop : (data ++ b).drop r = b.drop (r - data.length) := by
              conv_lhs => rw [show r = data.length + (r - data.length) from by omega]
              exact List.drop_append _
            rw [htake, hdrop]
            simp only [chunkCompose, List.nil_append]
            rw [drainC_body_take (r - data.length) b hble hrb2]
            simp
          · have hgt : (data ++ b).length < r := by omega
            rw [drainC_body_all r (data ++ b) hdb hgt]
            simp only [chunkCompose, List.nil_append]
            by_cases hb : b = []
            · subst hb
              rw [drainC_nil]
              simp
            · have hbl : b.length < r - data.length := by
                simp only [List.length_append] at hgt
                omega
              have harith : r - (data.length + b.length) = r - data.length - b.length := by
                omega
              rw [drainC_body_all (r - data.length) b hb hbl]
              simp only [List.length_append, harith]
      | crlf =>
        rw [chunkMeasure_crlf] at hm
        rcases data with - | ⟨b0, tl⟩
        · exact absurd rfl hdata
        · rcases tl with - | ⟨b1, rest⟩
          · rw [drainC_crlf_one b0]
            simp [chunkCompose]
          · by_cases hpair : b0 = CR ∧ b1 = LF
            · obtain ⟨h0, h1⟩ := hpair
              subst h0; subst h1
              rw [drainC_crlf_pair rest]
              rw [show (CR :: LF :: rest) ++ b = CR :: LF :: (rest ++ b) from by simp]
              rw [drainC_crlf_pair (rest ++ b)]
              exact ih (chunkMeasure .chunkLength rest)
                (by rw [chunkMeasure_chunkLength]; simp at hm; omega)
                .chunkLength rest b (le_refl _)
            · rw [drainC_crlf_nopair b0 b1 rest hpair]
              simp [chunkCompose]
      | trailer =>
        rw [chunkMeasure_trailer] at hm
        cases hsp : splitCRLF data with
        | none =>
          rw [drainC_trailer_stall data hdata hsp]
          simp [chunkCompose]
        | some p =>
          obtain ⟨line, rest⟩ := p
          have hlsp := splitCRLF_length data line rest hsp
          have hspb := splitCRLF_some_append data line rest b hsp
          cases line with
          | nil =>
            rw [drainC_trailer_fin data rest hdata hsp,
              drainC_trailer_fin (data ++ b) (rest ++ b) hdb hspb]
            rfl
          | cons c ctl =>
            rw [drainC_trailer_line data rest c ctl hdata hsp,
              drainC_trailer_line (data ++ b) (rest ++ b) c ctl hdb hspb]
            simp only [List.length_cons] at hlsp
            exact ih (chunkMeasure .trailer rest)
              (by rw [chunkMeasure_trailer]; omega) .trailer rest b (le_refl _)
      | finished =>
        rw [drainC_finished data hdata, drainC_finished (data ++ b) hdb]
        rfl

theorem drainC_result_quiescent (m : Nat) :
    ∀ st data, chunkMeasure st data ≤ m →
      ChunkQuiescent (drainC st data).state (drainC st data).buf := by
  induction m using Nat.strong_induction_on with
  | _ m ih =>
    intro st data hm
    by_cases hdata : data = []
    · subst hdata
      rw [drainC_nil]
      exact drainC_nil st
    · have hlenpos : 1 ≤ data.length := by
        cases data with
        | nil => exact absurd rfl hdata
        | cons a l => simp
      cases st with
      | chunkLength =>
        rw [chunkMeasure_chunkLength] at hm
        cases hsp : splitCRLF data with
        | none =>
          rw [drainC_chunkLength_stall data hdata hsp]
          exact drainC_chunkLength_stall data hdata hsp
        | some p =>
          obtain ⟨line, rest⟩ := p
          have hlsp := splitCRLF_length data line rest hsp
          cases hcs : parseChunkSize line with
          | none =>
            rw [drainC_chunkLength_malformed data line rest hdata hsp hcs]
            exact drainC_nil _
          | some n =>
            cases n with
            | zero =>
              rw [drainC_chunkLength_zero data line rest hdata hsp hcs]
              exact ih (chunkMeasure .trailer rest)
                (by rw [chunkMeasure_trailer]; omega) .trailer rest (le_refl _)
            | succ k =>
              rw [drainC_chunkLength_pos data line rest k hdata hsp hcs]
              exact ih (chunkMeasure (.body (k + 1)) rest)
                (by rw [chunkMeasure_body]; omega) (.body (k + 1)) rest (le_refl _)
      | body r =>
        rw [chunkMeasure_body] at hm
        by_cases hr : r ≤ data.length
        · rw [drainC_body_take r data hdata hr]
          exact ih (chunkMeasure .crlf (data.drop r))
            (by rw [chunkMeasure_crlf]; simp only [List.length_drop]; omega)
            .crlf (data.drop r) (le_refl _)
        · rw [drainC_body_all r data hdata (by omega)]
          exact drainC_nil _
      | crlf =>
        rw [chunkMeasure_crlf] at hm
        rcases data with - | ⟨b0, tl⟩
        · exact absurd rfl hdata
        · rcases tl with - | ⟨b1, rest⟩
          · rw [drainC_crlf_one b0]
            exact drainC_crlf_one b0
          · by_cases hpair : b0 = CR ∧ b1 = LF
            · obtain ⟨h0, h1⟩ := hpair
              subst h0; subst h1
              rw [drainC_crlf_pair rest]
              exact ih (chunkMeasure .chunkLength rest)
                (by rw [chunkMeasure_chunkLength]; simp at hm; omega)
                .chunkLength rest (le_refl _)
            · rw [drainC_crlf_nopair b0 b1 rest hpair]
              exact drainC_crlf_nopair b0 b1 rest hpair
      | trailer =>
        rw [chunkMeasure_trailer] at hm
        cases hsp : splitCRLF data with
        | none =>
          rw [drainC_trailer_stall data hdata hsp]
          exact drainC_trailer_stall data hdata hsp
        | some p =>
          obtain ⟨line, rest⟩ := p
          have hlsp := splitCRLF_length data line rest hsp
          cases line with
          | nil =>
            rw [drainC_trailer_fin data rest hdata hsp]
            exact drainC_nil _
          | cons c ctl =>
            rw [drainC_trailer_line data rest c ctl hdata hsp]
            simp only [List.length_cons] at hlsp
            exact ih (chunkMeasure .trailer rest)
              (by rw [chunkMeasure_trailer]; omega) .trailer rest (le_refl _)
      | finished =>
        rw [drainC_finished data hdata]
        exact drainC_nil _

theorem dataReceived_state_quiescent (d : ChunkedDecoder) (data : ByteStr) :
    ChunkQuiescent (d.dataReceived data).1.state (d.dataReceived data).1.buf := by
  rw [dataReceived_eq_drainC]
  exact drainC_result_quiescent _ d.state (d.buf ++ data) (le_refl _)

theorem dataReceived_append (d : ChunkedDecoder) (a b : ByteStr) :
    d.dataReceived (a ++ b) =
      (match (d.dataReceived a).2.2.2, (d.dataReceived a).2.2.1 with
       | some _, _ => d.dataReceived a
       | none, some resid =>
         ((d.dataReceived a).1, (d.dataReceived a).2.1, some (resid ++ b), none)
       | none, none =>
         (((d.dataReceived a).1.dataReceived b).1,
          (d.dataReceived a).2.1 ++ ((d.dataReceived a).1.dataReceived b).2.1,
          ((d.dataReceived a).1.dataReceived b).2.2.1,
          ((d.dataReceived a).1.dataReceived b).2.2.2)) := by
  have hassoc : d.buf ++ (a ++ b) = (d.buf ++ a) ++ b := (List.append_assoc _ _ _).symm
  rw [dataReceived_eq_drainC d (a ++ b), dataReceived_eq_drainC d a,
    dataReceived_eq_drainC ⟨(drainC d.state (d.buf ++ a)).state,
      (drainC d.state (d.buf ++ a)).buf⟩ b]
  simp only [hassoc]
  rw [drainC_extend (chunkMeasure d.state (d.buf ++ a)) d.state (d.buf ++ a) b (le_refl _)]
  simp only [chunkCompose]
  cases herr : (drainC d.state (d.buf ++ a)).err with
  | some e => simp [herr]
  | none =>
    cases hfin : (drainC d.state (d.buf ++ a)).fin with
    | some resid => simp [herr, hfin]
    | none => simp [herr, hfin]

/-- Feed the decoder a list of separate `dataReceived` calls, accumulating
the joined data-callback bytes; a raised error or a fired completion callback
stops the feeding (as the owning channel detaches the decoder then). -/
def ChunkedDecoder.feedPieces (d : ChunkedDecoder) :
    List ByteStr → ChunkedDecoder × ByteStr × Option ByteStr × Option PyError
  | [] => (d, [], none, none)
  | c :: cs =>
    if (d.dataReceived c).2.2.2.isSome ∨ (d.dataReceived c).2.2.1.isSome then
      d.dataReceived c
    else
      (((d.dataReceived c).1.feedPieces cs).1,
       (d.dataReceived c).2.1 ++ ((d.dataReceived c).1.feedPieces cs).2.1,
       ((d.dataReceived c).1.feedPieces cs).2.2.1,
       ((d.dataReceived c).1.feedPieces cs).2.2.2)

theorem feedPieces_flatten (cs : List ByteStr) :
    ∀ d : ChunkedDecoder, ChunkQuiescent d.state d.buf →
      (d.dataReceived cs.flatten).2.2.2 = none →
      ((d.dataReceived cs.flatten).2.2.1 = none
        ∨ (d.dataReceived cs.flatten).2.2.1 = some []) →
      d.feedPieces cs = d.dataReceived cs.flatten := by
  induction cs with
  | nil =>
    intro d hq herr hfin
    have hnil : d.dataReceived [] = (d, [], none, none) := by
      rw [dataReceived_eq_drainC]
      simp only [List.append_nil]
      rw [hq]
    simp only [List.flatten_nil, hnil, ChunkedDecoder.feedPieces]
  | cons c cs ih =>
    intro d hq herr hfin
    have hflat : (c :: cs).flatten = c ++ cs.flatten := List.flatten_cons
    rw [hflat] at herr hfin ⊢
    have hcomp := dataReceived_append d c cs.flatten
    cases herr1 : (d.dataReceived c).2.2.2 with
    | some e =>
      rw [herr1] at hcomp
      simp only at hcomp
      rw [hcomp] at herr
      rw [herr1] at herr
      exact absurd herr (by simp)
    | none =>
      cases hfin1 : (d.dataReceived c).2.2.1 with
      | some resid =>
        rw [herr1, hfin1] at hcomp
        simp only at hcomp
        rw [hcomp] at hfin herr ⊢
        have hresid : resid ++ cs.flatten = [] := by
          rcases hfin with hfin | hfin
          · simp at hfin
          · simpa using hfin
        have hres : resid = [] := by
          cases resid with
          | nil => rfl
          | cons x xs => simp at hresid
        unfold ChunkedDecoder.feedPieces
        rw [if_pos (by rw [herr1, hfin1]; simp)]
        have heta : d.dataReceived c
            = ((d.dataReceived c).1, (d.dataReceived c).2.1,
               (d.dataReceived c).2.2.1, (d.dataReceived c).2.2.2) := rfl
        conv_lhs => rw [heta]
        rw [herr1, hfin1, hresid, hres]
      | none =>
        rw [herr1, hfin1] at hcomp
        simp only at hcomp
        rw [hcomp] at hfin herr ⊢
        have hq1 := dataReceived_state_quiescent d c
        have hrec := ih (d.dataReceived c).1 hq1 herr ?_
        · unfold ChunkedDecoder.feedPieces
          rw [if_neg (by rw [herr1, hfin1]; simp)]
          rw [hrec]
        · exact hfin

/-! ### The request response writer -/

/-- Python values, for the dynamically-typed `setResponseCode` arguments:
an integer, a byte string, a text (unicode) string, or None. -/
inductive PyVal
  | pyInt (n : Nat)
  | pyBytes (b : ByteStr)
  | pyStr (s : ByteStr)
  | pyNone
  deriving DecidableEq, Repr

/-- The standard response-status messages (the `RESPONSES` table), restricted
to the codes the claims exercise, with the same fallback. -/
def responseMessage (code : Nat) : ByteStr :=
  if code = 100 then bs "Continue"
  else if code = 200 then bs "OK"
  else if code = 201 then bs "Created"
  else if code = 202 then bs "Accepted"
  else if code = 400 then bs "Bad Request"
  else bs "Unknown Status"

/-- Modelled from the spec: the response-writing state of a `Request` — the
protocol version and method of the request being answered, the response
status code and message, the response headers, and the monotonically
advancing write state (started writing, chunked framing chosen, finished)
plus the connection-alive flag. -/
structure Resp where
  clientproto : ByteStr
  method : ByteStr
  code : Nat
  codeMessage : ByteStr
  responseHeaders : Headers
  startedWriting : Bool
  chunked : Bool
  finished : Bool
  disconnected : Bool
  deriving DecidableEq, Repr

/-- A fresh response writer for a request of the given version and method,
with the given pre-set response headers and a default `200 OK` status. -/
def mkResp (version method : ByteStr) (respHeaders : Headers) : Resp :=
  ⟨version, method, 200, responseMessage 200, respHeaders,
   false, false, false, false⟩

/-- Modelled from the spec: `Request.setResponseCode(code, message)` — the
code must be an integer, anything else is a `TypeError`; a message, when
given, must be raw bytes, anything else is a `TypeError` (the repository's
own test `test_setResponseCodeAndMessageNotBytes` pins the rejection, so the
tests' behaviour is followed where the spec instead describes a string
coercion); with no message the standard message for the code is used.
(Python's truthiness test on the message, which sends an empty bytes message
down the default path, is not modelled; no claim depends on it.) -/
def Resp.setResponseCode (r : Resp) (code message : PyVal) : Except PyError Resp :=
  match code with
  | .pyInt n =>
    match message with
    | .pyNone => .ok { r with code := n, codeMessage := responseMessage n }
    | .pyBytes m => .ok { r with code := n, codeMessage := m }
    | _ => .error .typeError
  | _ => .error .typeError

/-- Serialize response headers, one `Name: value` CRLF line per raw value,
in insertion order with canonical name capitalization. -/
def serializeHeaders (h : Headers) : ByteStr :=
  (h.entries.map (fun e =>
    (e.2.map (fun v => canonicalHeaderName e.1 ++ bs ": " ++ v ++ CRLF)).flatten)).flatten

/-- The status line and header block emitted by the first write: the status
line, the `Transfer-Encoding: chunked` header when chunked framing was
chosen, all response headers, and the terminating blank line. -/
def statusAndHeaders (r : Resp) (chunked : Bool) : ByteStr :=
  r.clientproto ++ [32] ++ toDecBytes r.code ++ [32] ++ r.codeMessage ++ CRLF
  ++ (if chunked then bs "Transfer-Encoding: chunked" ++ CRLF else [])
  ++ serializeHeaders r.responseHeaders ++ CRLF

/-- Modelled from the spec: `Request.write(data)` — after `finish` it is a
fatal `RuntimeError`; the first call emits the status line and all response
headers atomically before any body bytes, choosing chunked framing exactly
when the protocol version is HTTP/1.1 and no Content-Length response header
was set; subsequent body bytes are wrapped as one chunk each under chunked
framing (nothing on the wire for an empty write) and written raw otherwise.
The result is the new state and the transmitted bytes. -/
def Resp.write (r : Resp) (data : ByteStr) : Except PyError (Resp × ByteStr) :=
  if r.finished then .error .runtimeError
  else if r.startedWriting then
    .ok (r, if r.chunked then (if data = [] then [] else joinChunk data) else data)
  else
    if r.clientproto = bs "HTTP/1.1"
        ∧ r.responseHeaders.getRawHeaders (bs "content-length") = none then
      .ok ({ r with startedWriting := true, chunked := true },
        statusAndHeaders r true ++ (if data = [] then [] else joinChunk data))
    else
      .ok ({ r with startedWriting := true }, statusAndHeaders r false ++ data)

/-- Modelled from the spec: `Request.finish()` — after connection loss it is
a fatal `RuntimeError`; a duplicate call is ignored; otherwise the header
block is emitted when nothing was written yet, the terminating zero-length
chunk is written under chunked framing, and the write state becomes
finished. -/
def Resp.finish (r : Resp) : Except PyError (Resp × ByteStr) :=
  if r.disconnected then .error .runtimeError
  else if r.finished then .ok (r, [])
  else
    match r.write [] with
    | .error e => .error e
    | .ok (r1, out1) =>
      .ok ({ r1 with finished := true },
        out1 ++ (if r1.chunked then bs "0" ++ CRLF ++ CRLF else []))

/-- Modelled from the spec: connection loss marks the request's connection
as no longer alive. -/
def Resp.connectionLost (r : Resp) : Resp := { r with disconnected := true }

theorem drainC_fin_finished (m : Nat) :
    ∀ st data resid, chunkMeasure st data ≤ m →
      (drainC st data).fin = some resid →
      (drainC st data).state = .finished ∧ (drainC st data).buf = [] := by
  induction m using Nat.strong_induction_on with
  | _ m ih =>
    intro st data resid hm hfin
    by_cases hdata : data = []
    · subst hdata
      rw [drainC_nil] at hfin
      simp at hfin
    · have hlenpos : 1 ≤ data.length := by
        cases data with
        | nil => exact absurd rfl hdata
        | cons a l => simp
      cases st with
      | chunkLength =>
        rw [chunkMeasure_chunkLength] at hm
        cases hsp : splitCRLF data with
        | none =>
          rw [drainC_chunkLength_stall data hdata hsp] at hfin
          simp at hfin
        | some p =>
          obtain ⟨line, rest⟩ := p
          have hlsp := splitCRLF_length data line rest hsp
          cases hcs : parseChunkSize line with
          | none =>
            rw [drainC_chunkLength_malformed data line rest hdata hsp hcs] at hfin
            simp at hfin
          | some n =>
            cases n with
            | zero =>
              rw [drainC_chunkLength_zero data line rest hdata hsp hcs] at hfin ⊢
              exact ih (chunkMeasure .trailer rest)
                (by rw [chunkMeasure_trailer]; omega) .trailer rest resid
                (le_refl _) hfin
            | succ k =>
              rw [drainC_chunkLength_pos data line rest k hdata hsp hcs] at hfin ⊢
              exact ih (chunkMeasure (.body (k + 1)) rest)
                (by rw [chunkMeasure_body]; omega) (.body (k + 1)) rest resid
                (le_refl _) hfin
      | body r =>
        rw [chunkMeasure_body] at hm
        by_cases hr : r ≤ data.length
        · rw [drainC_body_take r data hdata hr] at hfin ⊢
          exact ih (chunkMeasure .crlf (data.drop r))
            (by rw [chunkMeasure_crlf]; simp only [List.length_drop]; omega)
            .crlf (data.drop r) resid (le_refl _) hfin
        · rw [drainC_body_all r data hdata (by omega)] at hfin
          simp at hfin
      | crlf =>
        rw [chunkMeasure_crlf] at hm
        rcases data with - | ⟨b0, tl⟩
        · exact absurd rfl hdata
        · rcases tl with - | ⟨b1, rest⟩
          · rw [drainC_crlf_one b0] at hfin
            simp at hfin
          · by_cases hpair : b0 = CR ∧ b1 = LF
            · obtain ⟨h0, h1⟩ := hpair
              subst h0; subst h1
              rw [drainC_crlf_pair rest] at hfin ⊢
              exact ih (chunkMeasure .chunkLength rest)
                (by rw [chunkMeasure_chunkLength]; simp at hm; omega)
                .chunkLength rest resid (le_refl _) hfin
            · rw [drainC_crlf_nopair b0 b1 rest hpair] at hfin
              simp at hfin
      | trailer =>
        rw [chunkMeasure_trailer] at hm
        cases hsp : splitCRLF data with
        | none =>
          rw [drainC_trailer_stall data hdata hsp] at hfin
          simp at hfin
        | some p =>
          obtain ⟨line, rest⟩ := p
          have hlsp := splitCRLF_length data line rest hsp
          cases line with
          | nil =>
            rw [drainC_trailer_fin data rest hdata hsp]
            exact ⟨rfl, rfl⟩
          | cons c ctl =>
            rw [drainC_trailer_line data rest c ctl hdata hsp] at hfin ⊢
            simp only [List.length_cons] at hlsp
            exact ih (chunkMeasure .trailer rest)
              (by rw [chunkMeasure_trailer]; omega) .trailer rest resid
              (le_refl _) hfin
      | finished =>
        rw [drainC_finished data hdata] at hfin
        simp at hfin

theorem chunked_finished_state (d : ChunkedDecoder) (data resid : ByteStr)
    (hfin : (d.dataReceived data).2.2.1 = some resid) :
    (d.dataReceived data).1 = ⟨.finished, []⟩ := by
  rw [dataReceived_eq_drainC] at hfin ⊢
  simp only at hfin ⊢
  obtain ⟨hst, hbuf⟩ := drainC_fin_finished _ d.state (d.buf ++ data) resid
    (le_refl _) hfin
  rw [hst, hbuf]

theorem identity_dataReceived_ge (n : Nat) (data : ByteStr) (h : n ≤ data.length) :
    (mkIdentity (some n)).dataReceived data
      = .ok (⟨some 0, true⟩, data.take n, some (data.drop n)) := by
  unfold mkIdentity IdentityDecoder.dataReceived
  simp [show ¬data.length < n from by omega]

/-- C8: use-after-completion is a fatal usage error.  Calling `dataReceived`
on the identity decoder after its completion callback fired raises
`RuntimeError`; likewise for the chunked decoder (on nonempty data);
`Request.write` after `Request.finish` raises `RuntimeError`; and
`Request.finish` after connection loss raises `RuntimeError`. -/
theorem c8_use_after_completion :
    (∀ (d : IdentityDecoder) (data : ByteStr) (d1 : IdentityDecoder)
       (out resid data2 : ByteStr),
       d.dataReceived data = .ok (d1, out, some resid) →
       d1.dataReceived data2 = .error .runtimeError)
    ∧ (∀ (d : ChunkedDecoder) (data data2 resid : ByteStr),
       (d.dataReceived data).2.2.1 = some resid → data2 ≠ [] →
       ((d.dataReceived data).1.dataReceived data2).2.2.2 = some .runtimeError)
    ∧ (∀ (r r1 : Resp) (out data : ByteStr),
       r.finish = .ok (r1, out) → r1.write data = .error .runtimeError)
    ∧ (∀ r : Resp, r.connectionLost.finish = .error .runtimeError) := by
  refine ⟨?_, ?_, ?_, ?_⟩
  · intro d data d1 out resid data2 h
    obtain ⟨cl, done⟩ := d
    cases done with
    | true =>
      rw [show (⟨cl, true⟩ : IdentityDecoder).dataReceived data
          = .error .runtimeError from by
        unfold IdentityDecoder.dataReceived
        simp] at h
      exact absurd h (by simp)
    | false =>
      cases cl with
      | none =>
        rw [show (⟨none, false⟩ : IdentityDecoder).dataReceived data
            = .ok (⟨none, false⟩, data, none) from by
          unfold IdentityDecoder.dataReceived
          simp] at h
        simp at h
      | some r =>
        rw [show (⟨some r, false⟩ : IdentityDecoder) = mkIdentity (some r) from rfl] at h
        by_cases hlt : data.length < r
        · rw [identity_dataReceived_lt r data hlt] at h
          simp at h
        · rw [identity_dataReceived_ge r data (by omega)] at h
          simp only [Except.ok.injEq, Prod.mk.injEq] at h
          obtain ⟨hd1, -, -⟩ := h
          subst hd1
          rfl
  · intro d data data2 resid hfin hne
    rw [chunked_finished_state d data resid hfin]
    rw [dataReceived_eq_drainC]
    simp only [List.nil_append]
    rw [drainC_finished data2 hne]
  · intro r r1 out data h
    have hfin : r1.finished = true := by
      unfold Resp.finish at h
      by_cases hd : r.disconnected
      · rw [if_pos hd] at h
        exact absurd h (by simp)
      · rw [if_neg hd] at h
        by_cases hf : r.finished
        · rw [if_pos hf] at h
          simp only [Except.ok.injEq, Prod.mk.injEq] at h
          obtain ⟨h1, -⟩ := h
          rw [← h1]
          exact hf
        · rw [if_neg hf] at h
          cases hw : r.write [] with
          | error e =>
            rw [hw] at h
            simp at h
          | ok p =>
            obtain ⟨ra, outa⟩ := p
            rw [hw] at h
            simp only [Except.ok.injEq, Prod.mk.injEq] at h
            obtain ⟨h1, -⟩ := h
            rw [← h1]
    unfold Resp.write
    rw [if_pos hfin]
  · intro r
    unfold Resp.connectionLost Resp.finish
    rfl

/-- Witness for C8 at concrete inputs: a one-byte identity body, the
terminating chunk stream, and a fresh request finished and then written
to (or disconnected and then finished). -/
theorem c8_use_after_completion_witness :
    (∃ d1 out, (mkIdentity (some 1)).dataReceived (bs "x") = .ok (d1, out, some [])
      ∧ d1.dataReceived (bs "y") = .error .runtimeError)
    ∧ ((mkChunked.dataReceived (bs "0\r\n\r\n")).2.2.1 = some []
      ∧ ((mkChunked.dataReceived (bs "0\r\n\r\n")).1.dataReceived (bs "hello")).2.2.2
          = some .runtimeError)
    ∧ (∃ r1 out, (mkResp (bs "HTTP/1.0") (bs "GET") Headers.empty).finish = .ok (r1, out)
      ∧ r1.write (bs "z") = .error .runtimeError)
    ∧ ((mkResp (bs "HTTP/1.0") (bs "GET") Headers.empty).connectionLost.finish
        = .error .runtimeError) := by
  have h3 : (mkResp (bs "HTTP/1.0") (bs "GET") Headers.empty).finish
      = .ok (⟨bs "HTTP/1.0", bs "GET", 200, bs "OK", Headers.empty,
              true, false, true, false⟩,
             bs "HTTP/1.0 200 OK\r\n\r\n") := by decide
  refine ⟨⟨⟨some 0, true⟩, bs "x", ?_, ?_⟩, ⟨?_, ?_⟩, ⟨_, _, h3, ?_⟩, ?_⟩
  · decide
  · exact c8_use_after_completion.1 (mkIdentity (some 1)) (bs "x") ⟨some 0, true⟩
      (bs "x") [] (bs "y") (by decide)
  · decide
  · exact c8_use_after_completion.2.1 mkChunked (bs "0\r\n\r\n") (bs "hello") []
      (by decide) (by decide)
  · exact c8_use_after_completion.2.2.1 (mkResp (bs "HTTP/1.0") (bs "GET") Headers.empty)
      _ _ (bs "z") h3
  · exact c8_use_after_completion.2.2.2 (mkResp (bs "HTTP/1.0") (bs "GET") Headers.empty)

/-- C9 counterexample: `setResponseCode` with a non-bytes (text string)
message is rejected with a `TypeError`, not accepted by coercing it to its
string form as the claim states. -/
theorem c9_setResponseCode_counterexample :
    (mkResp (bs "HTTP/1.1") (bs "GET") Headers.empty).setResponseCode
      (.pyInt 202) (.pyStr (bs "not happily accepted")) = .error .typeError := by
  decide

/-- C9 (amended): `setResponseCode` rejects a non-integer code with a
`TypeError`; a non-bytes message is likewise rejected with a `TypeError`
(not coerced); an integer code with no message or a bytes message is
accepted. -/
theorem c9_setResponseCode :
    (∀ (r : Resp) (code : PyVal), (∀ n, code ≠ .pyInt n) →
      ∀ msg, r.setResponseCode code msg = .error .typeError)
    ∧ (∀ (r : Resp) (n : Nat) (m : ByteStr),
      r.setResponseCode (.pyInt n) (.pyStr m) = .error .typeError)
    ∧ (∀ (r : Resp) (n : Nat), r.setResponseCode (.pyInt n) .pyNone
        = .ok { r with code := n, codeMessage := responseMessage n })
    ∧ (∀ (r : Resp) (n : Nat) (m : ByteStr), r.setResponseCode (.pyInt n) (.pyBytes m)
        = .ok { r with code := n, codeMessage := m }) := by
  refine ⟨?_, fun r n m => rfl, fun r n => rfl, fun r n m => rfl⟩
  intro r code hcode msg
  cases code with
  | pyInt n => exact absurd rfl (hcode n)
  | pyBytes b => rfl
  | pyStr s => rfl
  | pyNone => rfl

/-- Witness for C9 at a concrete input: the string code `"1"` is not an
integer and is rejected. -/
theorem c9_setResponseCode_witness :
    (mkResp (bs "HTTP/1.1") (bs "GET") Headers.empty).setResponseCode
      (.pyStr (bs "1")) .pyNone = .error .typeError :=
  c9_setResponseCode.1 (mkResp (bs "HTTP/1.1") (bs "GET") Headers.empty)
    (.pyStr (bs "1")) (fun n h => by simp at h) .pyNone

/-! ### The connection channel -/

/-- The response-writing calls a per-request handler can make, mirroring the
`Request` writer API used by the handlers in the tests. -/
inductive RespAction
  | setCode (n : Nat)
  | setHeader (name value : ByteStr)
  | write (data : ByteStr)
  | finish

/-- The parsing mode of the channel: awaiting the request line (with the
one-shot tolerance for a stray blank line), awaiting header lines, reading an
identity body with a known remaining count, or reading a chunked body in a
given chunk-framing state. -/
inductive Mode
  | cmd (ateBlank : Bool)
  | hdrs
  | bodyIdentity (remaining : Nat)
  | bodyChunked (cs : CState)

/-- Modelled from the spec: the parsing core of `HTTPChannel` (implementation
absent from src/) — everything except the line buffer: the per-connection
configuration and limits, the injected per-request handler, the parser mode,
the in-progress request line and header fields, the per-request counters,
the persistence flag, the response headers pre-set by `checkPersistence`, a
dead flag (the channel ignores further input after a fatal error or a
non-persistent request's completion), and the observables: bytes written to
the transport, whether the transport is disconnecting, and the requests
handed to the handler. -/
structure Core where
  maxHeaders : Nat
  totalHeadersSize : Nat
  handler : ReqData → List RespAction
  mode : Mode
  pendingHeader : ByteStr
  command : ByteStr
  path : ByteStr
  version : ByteStr
  contentLength : Option Nat
  chunkedTE : Bool
  headerCount : Nat
  headerSize : Nat
  reqHeaders : Headers
  content : ByteStr
  persistent : Bool
  respHeadersInit : Headers
  dead : Bool
  disconnecting : Bool
  transportOut : ByteStr
  processedRequests : List ReqData

/-- Modelled from the spec: the state of `HTTPChannel` — the parsing core
together with the buffered bytes that do not yet form a complete framing
unit.  The transfer-decoding loop of the body modes is integrated into the
channel's own buffer (the decoders' look-ahead residual bytes are exactly
the unconsumed channel buffer). -/
structure Channel where
  core : Core
  buffer : ByteStr

/-- Bytes written to the transport so far. -/
def Channel.transportOut (c : Channel) : ByteStr := c.core.transportOut

/-- Whether the connection is being closed. -/
def Channel.disconnecting (c : Channel) : Bool := c.core.disconnecting

/-- The fully parsed requests handed to the per-request handler, in order. -/
def Channel.processedRequests (c : Channel) : List ReqData :=
  c.core.processedRequests

/-- A fresh channel with the given limits and handler on a new connection. -/
def mkChannel (maxHeaders totalHeadersSize : Nat)
    (handler : ReqData → List RespAction) : Channel :=
  ⟨⟨maxHeaders, totalHeadersSize, handler, .cmd false, [], [], [], [],
    none, false, 0, 0, Headers.empty, [], true, Headers.empty, false, false,
    [], []⟩, []⟩

/-- The default limits of `HTTPChannel` (`maxHeaders = 500`,
`totalHeadersSize = 16384`). -/
def mkDefaultChannel (handler : ReqData → List RespAction) : Channel :=
  mkChannel 500 16384 handler

/-- Modelled from the spec: `_respondToBadRequestAndDisconnect` — write
exactly `HTTP/1.1 400 Bad Request` CRLF CRLF, close the connection, and stop
consuming input (the buffered bytes are discarded by the dead channel). -/
def Core.badRequest (c : Core) : Core :=
  { c with
    transportOut := c.transportOut ++ bs "HTTP/1.1 400 Bad Request\r\n\r\n",
    dead := true, disconnecting := true }

/-- Run the handler's response-writing calls against a response writer,
collecting the transmitted bytes; a writer-level usage error stops the run
(no handler in the verified scenarios triggers one). -/
def runActions : List RespAction → Resp → Resp × ByteStr
  | [], r => (r, [])
  | a :: rest, r =>
    match a with
    | .setCode n =>
      match r.setResponseCode (.pyInt n) .pyNone with
      | .ok r1 => runActions rest r1
      | .error _ => (r, [])
    | .setHeader name value =>
      runActions rest
        { r with responseHeaders := r.responseHeaders.setRawHeaders name [value] }
    | .write data =>
      match r.write data with
      | .ok (r1, out) =>
        let p := runActions rest r1
        (p.1, out ++ p.2)
      | .error _ => (r, [])
    | .finish =>
      match r.finish with
      | .ok (r1, out) =>
        let p := runActions rest r1
        (p.1, out ++ p.2)
      | .error _ => (r, [])

/-- Modelled from the spec: `allContentReceived` — hand the fully parsed
request to the per-request handler, reset every per-request counter and
field for the next request, and, when the handler finished its response on a
non-persistent connection, close the connection (`requestDone`). -/
def Core.allContentReceived (c : Core) : Core :=
  let req : ReqData := ⟨c.command, c.path, c.version, c.reqHeaders, c.content⟩
  let p := runActions (c.handler req) (mkResp c.version c.command c.respHeadersInit)
  let c1 := { c with
    mode := .cmd false, pendingHeader := [],
    contentLength := none, chunkedTE := false,
    headerCount := 0, headerSize := 0,
    reqHeaders := Headers.empty, content := [],
    respHeadersInit := Headers.empty,
    processedRequests := c.processedRequests ++ [req],
    transportOut := c.transportOut ++ p.2 }
  if p.1.finished ∧ ¬c.persistent then
    { c1 with dead := true, disconnecting := true }
  else c1

/-- Modelled from the spec: `headerReceived` — split the accumulated header
line at the first colon (none is a fatal 400), lowercase the name and strip
the value, parse a Content-Length value (a non-parse is a fatal 400), note a
chunked Transfer-Encoding, store the header, and enforce `maxHeaders`.
Returns the core and whether parsing may proceed. -/
def Core.headerReceived (c : Core) (line : ByteStr) : Core × Bool :=
  match splitAtByte 58 line with
  | none => (c.badRequest, false)
  | some (name0, value0) =>
    let name := lowerBytes name0
    let value := stripBytes value0
    if name = bs "content-length" ∧ parseDecimal value = none then
      (c.badRequest, false)
    else
      let c1 := { c with
        contentLength :=
          if name = bs "content-length" then parseDecimal value
          else c.contentLength,
        chunkedTE :=
          if name = bs "transfer-encoding" ∧ lowerBytes value = bs "chunked"
          then true else c.chunkedTE,
        reqHeaders := c.reqHeaders.addRawHeader name value,
        headerCount := c.headerCount + 1 }
      if c1.headerCount > c1.maxHeaders then (c1.badRequest, false)
      else (c1, true)

/-- Whether the request carries `Expect: 100-continue` (first raw value,
case-insensitively). -/
def expectsContinue (h : Headers) : Bool :=
  match h.getRawHeaders (bs "expect") with
  | some (v :: _) => lowerBytes v == bs "100-continue"
  | _ => false

/-- Modelled from the spec: `allHeadersReceived` — decide persistence from
the request's own Connection header and version, transmit the interim
`HTTP/1.1 100 Continue` response immediately for an HTTP/1.1 request with
`Expect: 100-continue` (before any body byte), and install the body framing:
the chunked decoder when a chunked Transfer-Encoding was seen (Content-Length
disregarded), the identity decoder for a positive Content-Length, and no body
at all otherwise. -/
def Core.allHeadersReceived (c : Core) : Core :=
  let pr := checkPersistence c.reqHeaders c.respHeadersInit c.version
  let c1 := { c with persistent := pr.1, respHeadersInit := pr.2 }
  let c2 :=
    if c1.version = bs "HTTP/1.1" ∧ expectsContinue c1.reqHeaders then
      { c1 with transportOut := c1.transportOut ++ bs "HTTP/1.1 100 Continue\r\n\r\n" }
    else c1
  if c2.chunkedTE then { c2 with mode := .bodyChunked .chunkLength }
  else
    match c2.contentLength with
    | some (n + 1) => { c2 with mode := .bodyIdentity (n + 1) }
    | _ => c2.allContentReceived

/-- Whether a header line is a continuation line (begins with space or
tab). -/
def startsWithWS : ByteStr → Bool
  | b :: _ => b == 32 || b == 9
  | [] => false

/-- Modelled from the spec: `lineReceived` — count the line against the
per-request `totalHeadersSize` byte budget (a fatal 400 when exceeded); in
request-line mode eat one stray blank line, then split the request line into
exactly three whitespace-separated tokens (anything else, or any non-ASCII
byte in the line, is a fatal 400); in header mode a blank line ends the
headers (flushing the pending header first), a line starting with whitespace
continues the pending header, and any other line flushes the pending header
and becomes the new pending header. -/
def Core.handleLine (c : Core) (line : ByteStr) : Core :=
  let c0 := { c with headerSize := c.headerSize + line.length }
  if c0.headerSize > c0.totalHeadersSize then c0.badRequest
  else
    match c0.mode with
    | .cmd ateBlank =>
      if line = [] ∧ ateBlank = false then { c0 with mode := .cmd true }
      else
        match splitWS line with
        | [cmd0, pth, ver] =>
          if allAscii line then
            { c0 with command := cmd0, path := pth, version := ver, mode := .hdrs }
          else c0.badRequest
        | _ => c0.badRequest
    | .hdrs =>
      if line = [] then
        if c0.pendingHeader = [] then c0.allHeadersReceived
        else
          match Core.headerReceived { c0 with pendingHeader := [] } c0.pendingHeader with
          | (c1, true) => c1.allHeadersReceived
          | (c1, false) => c1
      else if startsWithWS line then
        { c0 with pendingHeader := c0.pendingHeader ++ [LF] ++ line }
      else
        if c0.pendingHeader = [] then { c0 with pendingHeader := line }
        else
          match Core.headerReceived { c0 with pendingHeader := line } c0.pendingHeader with
          | (c1, true) => c1
          | (c1, false) => c1
    | .bodyIdentity _ => c0
    | .bodyChunked _ => c0

/-- Rebuild a channel from a stepped core and the unconsumed buffer bytes; a
core that went dead discards the buffer. -/
def glue (k : Core) (rest : ByteStr) : Channel :=
  ⟨k, if k.dead then [] else rest⟩

/-- One step of the channel's consuming loop: nothing on a dead channel; in
line modes consume one complete CRLF-terminated line from the buffer; in
body modes consume body bytes one at a time (identity and chunk bodies) or
complete chunk-framing lines (chunk-size lines, the chunk-separating CRLF,
trailer lines), handing completed bodies to `allContentReceived` and a
malformed chunk-size line to the 400 path. -/
def Channel.step (c : Channel) : Option Channel :=
  if c.core.dead then none
  else
    match c.core.mode with
    | .cmd _ =>
      match splitCRLF c.buffer with
      | none => none
      | some (line, rest) => some (glue (c.core.handleLine line) rest)
    | .hdrs =>
      match splitCRLF c.buffer with
      | none => none
      | some (line, rest) => some (glue (c.core.handleLine line) rest)
    | .bodyIdentity r =>
      match c.buffer with
      | [] => none
      | x :: rest =>
        match r with
        | 0 => some (glue c.core.allContentReceived c.buffer)
        | r + 1 =>
          if r = 0 then
            some (glue ({ c.core with content := c.core.content ++ [x] }).allContentReceived rest)
          else
            some (glue { c.core with content := c.core.content ++ [x], mode := .bodyIdentity r } rest)
    | .bodyChunked cst =>
      match cst with
      | .chunkLength =>
        match splitCRLF c.buffer with
        | none => none
        | some (line, rest) =>
          match parseChunkSize line with
          | none => some (glue c.core.badRequest rest)
          | some 0 => some (glue { c.core with mode := .bodyChunked .trailer } rest)
          | some (n + 1) =>
            some (glue { c.core with mode := .bodyChunked (.body (n + 1)) } rest)
      | .body r =>
        match c.buffer with
        | [] => none
        | x :: rest =>
          match r with
          | 0 => some (glue { c.core with mode := .bodyChunked .crlf } c.buffer)
          | r + 1 =>
            if r = 0 then
              some (glue { c.core with content := c.core.content ++ [x], mode := .bodyChunked .crlf } rest)
            else
              some (glue { c.core with content := c.core.content ++ [x], mode := .bodyChunked (.body r) } rest)
      | .crlf =>
        match c.buffer with
        | b0 :: b1 :: rest =>
          if b0 = CR ∧ b1 = LF then
            some (glue { c.core with mode := .bodyChunked .chunkLength } rest)
          else none
        | _ => none
      | .trailer =>
        match splitCRLF c.buffer with
        | none => none
        | some ([], rest) => some (glue c.core.allContentReceived rest)
        | some (_ :: _, rest) => some (glue c.core rest)
      | .finished => none

/-- The rank of a parsing mode: the two modes with a zero-byte outgoing
transition rank above the rest. -/
def modeRank : Mode → Nat
  | .bodyIdentity _ => 1
  | .bodyChunked (.body _) => 1
  | _ => 0

/-- The step measure: every step either consumes buffered bytes or performs
one of the two zero-byte mode transitions. -/
def chMeasure (c : Channel) : Nat :=
  2 * c.buffer.length + modeRank c.core.mode

/-- Fuel-driven iteration of the channel step. -/
def processN : Nat → Channel → Channel
  | 0, c => c
  | n + 1, c =>
    match c.step with
    | none => c
    | some c1 => processN n c1

/-- Run the consuming loop to quiescence (the measure is always enough
fuel). -/
def Channel.process (c : Channel) : Channel := processN (chMeasure c) c

/-- Modelled from the spec: `dataReceived` — a dead channel ignores input;
otherwise append the bytes to the line buffer and consume as much as
possible. -/
def Channel.dataReceived (c : Channel) (data : ByteStr) : Channel :=
  if c.core.dead then c else Channel.process ⟨c.core, c.buffer ++ data⟩

/-- Feed the channel one byte at a time. -/
def Channel.dataReceivedBytes (c : Channel) (data : ByteStr) : Channel :=
  data.foldl (fun ch b => ch.dataReceived [b]) c

/-- The per-request handler used by the header-limit tests: finish the
response immediately with no body (`SimpleRequest`). -/
def simpleHandler : ReqData → List RespAction := fun _ => [.finish]

/-- The per-request handler of the buffered-response tests
(`DummyHTTPHandler`): echo the request's Content-Length header and body in a
quoted block, with explicit response headers. -/
def dummyHandler (req : ReqData) : List RespAction :=
  let length : ByteStr :=
    match req.getHeader (bs "content-length") with
    | none => bs "None"
    | some v => v
  let body := [39, 39, 39, LF] ++ length ++ [LF] ++ req.content ++ [39, 39, 39, LF]
  [.setCode 200,
   .setHeader (bs "Request") req.uri,
   .setHeader (bs "Command") req.method,
   .setHeader (bs "Version") req.clientproto,
   .setHeader (bs "Content-Length") (toDecBytes body.length),
   .write body, .finish]

/-- The two identical empty chunked 200 responses the header-limit tests
expect on the wire. -/
def twoChunked200s : ByteStr :=
  bs "HTTP/1.1 200 OK\r\nTransfer-Encoding: chunked\r\n\r\n0\r\n\r\n" ++
  bs "HTTP/1.1 200 OK\r\nTransfer-Encoding: chunked\r\n\r\n0\r\n\r\n"

/-- C5: the `maxHeaders` and `totalHeadersSize` limits are enforced per
request, with counters reset at the start of each new request on a
persistent connection.  Two pipelined HTTP/1.1 requests, each with one
header, under `maxHeaders = 1` both succeed with normal 200 responses (and
both parsed requests, with their headers, reach the handler); likewise two
pipelined requests each individually under a `totalHeadersSize = 60` byte
budget that their combined header bytes exceed. -/
theorem c5_limits_reset_per_request :
    (((mkChannel 1 16384 simpleHandler).dataReceivedBytes
        (bs "GET / HTTP/1.1\r\nFoo: bar\r\n\r\nGET / HTTP/1.1\r\nBar: baz\r\n\r\n")).transportOut
      = twoChunked200s
    ∧ ((mkChannel 1 16384 simpleHandler).dataReceivedBytes
        (bs "GET / HTTP/1.1\r\nFoo: bar\r\n\r\nGET / HTTP/1.1\r\nBar: baz\r\n\r\n")).processedRequests
      = [⟨bs "GET", bs "/", bs "HTTP/1.1", ⟨[(bs "foo", [bs "bar"])]⟩, []⟩,
         ⟨bs "GET", bs "/", bs "HTTP/1.1", ⟨[(bs "bar", [bs "baz"])]⟩, []⟩]
    ∧ ((mkChannel 1 16384 simpleHandler).dataReceivedBytes
        (bs "GET / HTTP/1.1\r\nFoo: bar\r\n\r\nGET / HTTP/1.1\r\nBar: baz\r\n\r\n")).disconnecting
      = false)
    ∧ (((mkChannel 500 60 simpleHandler).dataReceivedBytes
        (bs "GET / HTTP/1.1\r\nSome-Header: total-less-than-60\r\n\r\n" ++
         bs "GET / HTTP/1.1\r\nSome-Header: less-than-60\r\n\r\n")).transportOut
      = twoChunked200s
    ∧ ((mkChannel 500 60 simpleHandler).dataReceivedBytes
        (bs "GET / HTTP/1.1\r\nSome-Header: total-less-than-60\r\n\r\n" ++
         bs "GET / HTTP/1.1\r\nSome-Header: less-than-60\r\n\r\n")).processedRequests.length
      = 2) := by
  refine ⟨⟨?_, ?_, ?_⟩, ?_, ?_⟩ <;> decide

/-- The exact interim response bytes for `Expect: 100-continue`. -/
def continue100 : ByteStr := bs "HTTP/1.1 100 Continue\r\n\r\n"

/-- The head of the 100-continue test request, up to and including the
header-terminating blank line. -/
def expectHead11 : ByteStr :=
  bs "GET / HTTP/1.1\r\nHost: www.example.com\r\nExpect: 100-continue\r\nContent-Length: 3\r\n\r\n"

/-- The HTTP/1.0 variant of the 100-continue test request head. -/
def expectHead10 : ByteStr :=
  bs "GET / HTTP/1.0\r\nHost: www.example.com\r\nContent-Length: 3\r\nExpect: 100-continue\r\n\r\n"

/-- The echo response `DummyHTTPHandler` produces for the GET with body
`abc` (version as given). -/
def echoResp (version : String) : ByteStr :=
  bs ("HTTP/" ++ version ++ " 200 OK\r\nRequest: /\r\nCommand: GET\r\nVersion: HTTP/"
      ++ version ++ "\r\nContent-Length: 13\r\n\r\n")
  ++ [39, 39, 39, LF] ++ bs "3" ++ [LF] ++ bs "abc" ++ [39, 39, 39, LF]

/-- The echo response for the pipelined POST with body `defg`. -/
def echoRespPost : ByteStr :=
  bs "HTTP/1.1 200 OK\r\nRequest: /foo\r\nCommand: POST\r\nVersion: HTTP/1.1\r\nContent-Length: 14\r\n\r\n"
  ++ [39, 39, 39, LF] ++ bs "4" ++ [LF] ++ bs "defg" ++ [39, 39, 39, LF]

/-- C6: for an HTTP/1.1 request carrying `Expect: 100-continue`, once the
headers are fully parsed the channel has transmitted exactly
`HTTP/1.1 100 Continue` CRLF CRLF — before any body byte is consumed and
before the real response, which follows only after the body arrives.  No
interim response is sent for an HTTP/1.0 request.  With a second pipelined
request in the same call, the second response is unaffected and appears
after the first request's final response. -/
theorem c6_expect_100_continue :
    (((mkDefaultChannel dummyHandler).dataReceived expectHead11).transportOut = continue100
    ∧ (((mkDefaultChannel dummyHandler).dataReceived expectHead11).dataReceived
        (bs "abc")).transportOut = continue100 ++ echoResp "1.1")
    ∧ (((mkDefaultChannel dummyHandler).dataReceived expectHead10).transportOut = []
    ∧ (((mkDefaultChannel dummyHandler).dataReceived expectHead10).dataReceived
        (bs "abc")).transportOut = echoResp "1.0")
    ∧ ((mkDefaultChannel dummyHandler).dataReceived
        (expectHead11 ++ bs "abc" ++
         bs "POST /foo HTTP/1.1\r\nHost: www.example.com\r\nContent-Length: 4\r\n\r\ndefg")).transportOut
      = continue100 ++ echoResp "1.1" ++ echoRespPost := by
  refine ⟨⟨?_, ?_⟩, ⟨?_, ?_⟩, ?_⟩ <;> decide

theorem modeRank_le (m : Mode) : modeRank m ≤ 1 := by
  unfold modeRank
  split <;> omega

theorem allContentReceived_mode (c : Core) :
    (Core.allContentReceived c).mode = .cmd false := by
  simp only [Core.allContentReceived]
  split <;> rfl

theorem glue_measure (k : Core) (rest : ByteStr) :
    chMeasure (glue k rest) ≤ 2 * rest.length + modeRank k.mode := by
  unfold glue chMeasure
  by_cases hk : k.dead
  · rw [if_pos hk]
    simp
  · rw [if_neg hk]

theorem glue_measure1 (k : Core) (rest : ByteStr) :
    chMeasure (glue k rest) ≤ 2 * rest.length + 1 := by
  have h1 := glue_measure k rest
  have h2 := modeRank_le k.mode
  omega

theorem step_decreases (c c1 : Channel) (h : c.step = some c1) :
    chMeasure c1 < chMeasure c := by
  unfold Channel.step at h
  split at h
  · exact absurd h (by simp)
  · rename_i hd
    have hmc : chMeasure c = 2 * c.buffer.length + modeRank c.core.mode := rfl
    split at h
    · rename_i a hm
      split at h
      · exact absurd h (by simp)
      · rename_i line rest hsp
        simp only [Option.some.injEq] at h
        subst h
        have hlb := splitCRLF_length c.buffer line rest hsp
        refine lt_of_le_of_lt (glue_measure1 _ _) ?_
        rw [hmc, hm]
        simp only [modeRank]
        omega
    · rename_i hm
      split at h
      · exact absurd h (by simp)
      · rename_i line rest hsp
        simp only [Option.some.injEq] at h
        subst h
        have hlb := splitCRLF_length c.buffer line rest hsp
        refine lt_of_le_of_lt (glue_measure1 _ _) ?_
        rw [hmc, hm]
        simp only [modeRank]
        omega
    · rename_i r hm
      split at h
      · exact absurd h (by simp)
      · rename_i x rest hbuf
        have hblen : c.buffer.length = rest.length + 1 := by rw [hbuf]; simp
        split at h
        · simp only [Option.some.injEq] at h
          subst h
          refine lt_of_le_of_lt (glue_measure _ _) ?_
          rw [allContentReceived_mode, hmc, hm]
          simp only [modeRank]
          omega
        · rename_i r2
          split at h
          · simp only [Option.some.injEq] at h
            subst h
            refine lt_of_le_of_lt (glue_measure _ _) ?_
            rw [allContentReceived_mode, hmc, hm]
            simp only [modeRank]
            omega
          · simp only [Option.some.injEq] at h
            subst h
            refine lt_of_le_of_lt (glue_measure1 _ _) ?_
            rw [hmc, hm]
            simp only [modeRank]
            omega
    · rename_i cst hm
      split at h
      · split at h
        · exact absurd h (by simp)
        · rename_i line rest hsp
          have hlb := splitCRLF_length c.buffer line rest hsp
          split at h <;>
            (simp only [Option.some.injEq] at h
             subst h
             refine lt_of_le_of_lt (glue_measure1 _ _) ?_
             rw [hmc, hm]
             simp only [modeRank]
             omega)
      · rename_i r
        split at h
        · exact absurd h (by simp)
        · rename_i x rest hbuf
          have hblen : c.buffer.length = rest.length + 1 := by rw [hbuf]; simp
          split at h
          · simp only [Option.some.injEq] at h
            subst h
            refine lt_of_le_of_lt (glue_measure _ _) ?_
            rw [hmc, hm]
            simp only [modeRank]
            omega
          · rename_i r2
            split at h <;>
              (simp only [Option.some.injEq] at h
               subst h
               refine lt_of_le_of_lt (glue_measure1 _ _) ?_
               rw [hmc, hm]
               simp only [modeRank]
               omega)
      · split at h
        · rename_i b0 b1 rest hbuf
          split at h
          · simp only [Option.some.injEq] at h
            subst h
            have hblen : c.buffer.length = rest.length + 2 := by rw [hbuf]; simp
            refine lt_of_le_of_lt (glue_measure1 _ _) ?_
            rw [hmc, hm]
            simp only [modeRank]
            omega
          · exact absurd h (by simp)
        · exact absurd h (by simp)
      · split at h
        · exact absurd h (by simp)
        · rename_i rest hsp
          have hlb := splitCRLF_length c.buffer [] rest hsp
          simp only [List.length_nil] at hlb
          simp only [Option.some.injEq] at h
          subst h
          refine lt_of_le_of_lt (glue_measure1 _ _) ?_
          rw [hmc, hm]
          simp only [modeRank]
          omega
        · rename_i c0 ctl rest hsp
          have hlb := splitCRLF_length c.buffer (c0 :: ctl) rest hsp
          simp only [List.length_cons] at hlb
          simp only [Option.some.injEq] at h
          subst h
          refine lt_of_le_of_lt (glue_measure1 _ _) ?_
          rw [hmc, hm]
          simp only [modeRank]
          omega
      · exact absurd h (by simp)

theorem processN_quiesce (c : Channel) (h : c.step = none) :
    ∀ n, processN n c = c := by
  intro n
  cases n with
  | zero => rfl
  | succ k => simp [processN, h]

theorem processN_fuel_eq (m : Nat) :
    ∀ (c : Channel) (f1 f2 : Nat), chMeasure c ≤ m → chMeasure c ≤ f1 →
      chMeasure c ≤ f2 → processN f1 c = processN f2 c := by
  induction m using Nat.strong_induction_on with
  | _ m ih =>
    intro c f1 f2 hm h1 h2
    cases hs : c.step with
    | none => rw [processN_quiesce c hs, processN_quiesce c hs]
    | some c1 =>
      have hdec := step_decreases c c1 hs
      obtain ⟨g1, rfl⟩ : ∃ g1, f1 = g1 + 1 := ⟨f1 - 1, by omega⟩
      obtain ⟨g2, rfl⟩ : ∃ g2, f2 = g2 + 1 := ⟨f2 - 1, by omega⟩
      simp only [processN, hs]
      exact ih (chMeasure c1) (by omega) c1 g1 g2 (le_refl _) (by omega) (by omega)

theorem process_eq (c : Channel) :
    c.process = match c.step with | none => c | some c1 => c1.process := by
  unfold Channel.process
  cases hs : c.step with
  | none => rw [processN_quiesce c hs]
  | some c1 =>
    have hdec := step_decreases c c1 hs
    obtain ⟨g, hg⟩ : ∃ g, chMeasure c = g + 1 := ⟨chMeasure c - 1, by omega⟩
    rw [hg]
    simp only [processN, hs]
    exact processN_fuel_eq (chMeasure c1) c1 g (chMeasure c1) (le_refl _)
      (by omega) (le_refl _)

theorem process_step_none (m : Nat) :
    ∀ c : Channel, chMeasure c ≤ m → (c.process).step = none := by
  induction m using Nat.strong_induction_on with
  | _ m ih =>
    intro c hm
    rw [process_eq]
    cases hs : c.step with
    | none => exact hs
    | some c1 =>
      have hdec := step_decreases c c1 hs
      exact ih (chMeasure c1) (by omega) c1 (le_refl _)

theorem process_idem (c : Channel) : (c.process).process = c.process := by
  rw [process_eq (c.process), process_step_none (chMeasure c) c (le_refl _)]

/-- Append further input to a live channel's buffer (a dead channel ignores
input). -/
def appendBuf (c : Channel) (b : ByteStr) : Channel :=
  if c.core.dead then c else ⟨c.core, c.buffer ++ b⟩

theorem glue_appendBuf (k : Core) (rest b : ByteStr) :
    appendBuf (glue k rest) b = glue k (rest ++ b) := by
  unfold glue appendBuf
  by_cases hk : k.dead
  · simp [hk]
  · simp [hk]

theorem step_appendBuf (c c1 : Channel) (b : ByteStr) (h : c.step = some c1) :
    (appendBuf c b).step = some (appendBuf c1 b) := by
  unfold Channel.step at h
  split at h
  · exact absurd h (by simp)
  · rename_i hd
    have happ : appendBuf c b = ⟨c.core, c.buffer ++ b⟩ := by
      unfold appendBuf
      rw [if_neg hd]
    rw [happ]
    unfold Channel.step
    simp only
    rw [if_neg hd]
    split at h
    · split at h
      · exact absurd h (by simp)
      · rename_i line rest hsp
        simp only [Option.some.injEq] at h
        subst h
        rw [splitCRLF_some_append c.buffer line rest b hsp]
        simp only
        rw [glue_appendBuf]
    · split at h
      · exact absurd h (by simp)
      · rename_i line rest hsp
        simp only [Option.some.injEq] at h
        subst h
        rw [splitCRLF_some_append c.buffer line rest b hsp]
        simp only
        rw [glue_appendBuf]
    · split at h
      · exact absurd h (by simp)
      · rename_i x rest hbuf
        rw [hbuf]
        simp only [List.cons_append]
        split at h
        · simp only [Option.some.injEq] at h
          subst h
          rw [glue_appendBuf, hbuf]
          simp [List.cons_append]
        · rename_i r2
          split at h
          · rename_i hr2
            simp only [Option.some.injEq] at h
            subst h
            rw [glue_appendBuf]
            simp [hr2, List.cons_append]
          · rename_i hr2
            simp only [Option.some.injEq] at h
            subst h
            rw [glue_appendBuf]
            simp [hr2, List.cons_append]
    · split at h
      · split at h
        · exact absurd h (by simp)
        · rename_i line rest hsp
          rw [splitCRLF_some_append c.buffer line rest b hsp]
          simp only
          split at h <;>
            (simp only [Option.some.injEq] at h
             subst h
             rw [glue_appendBuf])
      · split at h
        · exact absurd h (by simp)
        · rename_i x rest hbuf
          rw [hbuf]
          simp only [List.cons_append]
          split at h
          · simp only [Option.some.injEq] at h
            subst h
            rw [glue_appendBuf, hbuf]
            simp [List.cons_append]
          · rename_i r2
            split at h
            · rename_i hr2
              simp only [Option.some.injEq] at h
              subst h
              rw [glue_appendBuf]
              simp [hr2, List.cons_append]
            · rename_i hr2
              simp only [Option.some.injEq] at h
              subst h
              rw [glue_appendBuf]
              simp [hr2, List.cons_append]
      · split at h
        · rename_i b0 b1 rest hbuf
          rw [hbuf]
          simp only [List.cons_append]
          split at h
          · rename_i hpair
            simp only [Option.some.injEq] at h
            subst h
            rw [glue_appendBuf]
            simp [hpair, List.cons_append]
          · exact absurd h (by simp)
        · exact absurd h (by simp)
      · split at h
        · exact absurd h (by simp)
        · rename_i rest hsp
          simp only [Option.some.injEq] at h
          subst h
          rw [splitCRLF_some_append c.buffer [] rest b hsp]
          simp only
          rw [glue_appendBuf]
        · rename_i c0 ctl rest hsp
          simp only [Option.some.injEq] at h
          subst h
          rw [splitCRLF_some_append c.buffer (c0 :: ctl) rest b hsp]
          simp only
          rw [glue_appendBuf]
      · exact absurd h (by simp)

theorem process_appendBuf (m : Nat) :
    ∀ (c : Channel) (b : ByteStr), chMeasure c ≤ m →
      Channel.process (appendBuf c b) = Channel.process (appendBuf c.process b) := by
  induction m using Nat.strong_induction_on with
  | _ m ih =>
    intro c b hm
    cases hs : c.step with
    | none =>
      have hp : c.process = c := by
        rw [process_eq, hs]
      rw [hp]
    | some c1 =>
      have hdec := step_decreases c c1 hs
      have hp : c.process = c1.process := by
        rw [process_eq, hs]
      have hstep := step_appendBuf c c1 b hs
      have hp2 : Channel.process (appendBuf c b) = Channel.process (appendBuf c1 b) := by
        rw [process_eq (appendBuf c b), hstep]
      rw [hp2, hp]
      exact ih (chMeasure c1) (by omega) c1 b (le_refl _)

/-- Receiving bytes in two pieces is the same as receiving them at once:
the channel processes to quiescence either way. -/
theorem chan_dataReceived_append (c : Channel) (a b : ByteStr) :
    (c.dataReceived a).dataReceived b = c.dataReceived (a ++ b) := by
  unfold Channel.dataReceived
  by_cases hd : c.core.dead
  · rw [if_pos hd, if_pos hd, if_pos hd]
  · rw [if_neg hd, if_neg hd]
    have hX : appendBuf ⟨c.core, c.buffer ++ a⟩ b = ⟨c.core, c.buffer ++ (a ++ b)⟩ := by
      unfold appendBuf
      simp only
      rw [if_neg hd, List.append_assoc]
    by_cases hyd : (Channel.process ⟨c.core, c.buffer ++ a⟩).core.dead
    · rw [if_pos hyd]
      have hY : appendBuf (Channel.process ⟨c.core, c.buffer ++ a⟩) b =
          Channel.process ⟨c.core, c.buffer ++ a⟩ := by
        unfold appendBuf
        rw [if_pos hyd]
      have := process_appendBuf (chMeasure (⟨c.core, c.buffer ++ a⟩ : Channel))
        ⟨c.core, c.buffer ++ a⟩ b (le_refl _)
      rw [hX, hY, process_idem] at this
      exact this.symm
    · rw [if_neg hyd]
      have hY : appendBuf (Channel.process ⟨c.core, c.buffer ++ a⟩) b =
          ⟨(Channel.process ⟨c.core, c.buffer ++ a⟩).core,
            (Channel.process ⟨c.core, c.buffer ++ a⟩).buffer ++ b⟩ := by
        unfold appendBuf
        rw [if_neg hyd]
      have := process_appendBuf (chMeasure (⟨c.core, c.buffer ++ a⟩ : Channel))
        ⟨c.core, c.buffer ++ a⟩ b (le_refl _)
      rw [hX, hY] at this
      exact this.symm

theorem mkChannel_dataReceived_nil (mh ths : Nat)
    (handler : ReqData → List RespAction) :
    (mkChannel mh ths handler).dataReceived [] = mkChannel mh ths handler := rfl

theorem dataReceivedBytes_cons (c : Channel) (x : Nat) (rest : ByteStr) :
    c.dataReceivedBytes (x :: rest) = (c.dataReceived [x]).dataReceivedBytes rest := rfl

theorem dataReceivedBytes_eq_whole (data : ByteStr) :
    ∀ (c : Channel) (x : Nat),
      c.dataReceivedBytes (x :: data) = c.dataReceived (x :: data) := by
  induction data with
  | nil =>
    intro c x
    rfl
  | cons y t ih =>
    intro c x
    rw [dataReceivedBytes_cons, ih (c.dataReceived [x]) y]
    have h2 := chan_dataReceived_append c [x] (y :: t)
    simp only [List.cons_append, List.nil_append] at h2
    exact h2

/-- C1: feeding the channel bytes in pieces is equivalent to feeding them
whole — receiving two byte strings in sequence equals receiving their
concatenation, so a fresh channel fed any byte string one byte at a time
ends in exactly the state (parsed requests, transport bytes and all) of a
single `dataReceived` call; and the chunked decoder fed piecewise delivers
the same decoded body and completion residual as when fed whole, whenever
the whole feed raises no error and leaves no nonempty completion
residual. -/
theorem c1_byte_at_a_time :
    (∀ (c : Channel) (a b : ByteStr),
        (c.dataReceived a).dataReceived b = c.dataReceived (a ++ b))
    ∧ (∀ (mh ths : Nat) (handler : ReqData → List RespAction) (data : ByteStr),
        (mkChannel mh ths handler).dataReceivedBytes data
          = (mkChannel mh ths handler).dataReceived data)
    ∧ (∀ (cs : List ByteStr) (d : ChunkedDecoder),
        ChunkQuiescent d.state d.buf →
        (d.dataReceived cs.flatten).2.2.2 = none →
        ((d.dataReceived cs.flatten).2.2.1 = none
          ∨ (d.dataReceived cs.flatten).2.2.1 = some []) →
        d.feedPieces cs = d.dataReceived cs.flatten) := by
  refine ⟨chan_dataReceived_append, ?_, ?_⟩
  · intro mh ths handler data
    cases data with
    | nil => exact (mkChannel_dataReceived_nil mh ths handler).symm
    | cons x rest => exact dataReceivedBytes_eq_whole rest (mkChannel mh ths handler) x
  · intro cs d hq herr hfin
    exact feedPieces_flatten cs d hq herr hfin

/-- Witness for C1: the chunked-decoder conjunct applied to the stream of
`ChunkedTransferEncodingTests.test_short`, delivered one byte at a time. -/
theorem c1_byte_at_a_time_witness :
    mkChunked.feedPieces ((bs "3\r\nabc\r\n5\r\n12345\r\n0\r\n\r\n").map (fun b => [b]))
      = mkChunked.dataReceived
          (((bs "3\r\nabc\r\n5\r\n12345\r\n0\r\n\r\n").map (fun b => [b])).flatten) :=
  c1_byte_at_a_time.2.2 _ mkChunked (drainC_nil .chunkLength) (by decide) (by decide)

theorem splitCRLF_clean : ∀ (line rest : ByteStr), ¬ 13 ∈ line →
    splitCRLF (line ++ 13 :: 10 :: rest) = some (line, rest) := by
  intro line
  induction line with
  | nil => intro rest _; rfl
  | cons b l ih =>
    intro rest h
    have hb : b ≠ 13 := fun hb => h (by rw [hb]; exact List.mem_cons_self _ _)
    have hl : ¬ 13 ∈ l := fun hm => h (List.mem_cons_of_mem _ hm)
    cases l with
    | nil =>
      show splitCRLF (b :: 13 :: 10 :: rest) = some ([b], rest)
      simp only [splitCRLF]
      rw [if_neg (fun hc => absurd hc.2 (by decide))]
      rw [if_pos (⟨rfl, rfl⟩ : (13 : Nat) = CR ∧ (10 : Nat) = LF)]
    | cons c l2 =>
      simp only [List.cons_append]
      simp only [splitCRLF]
      rw [if_neg (fun hc => hb hc.1)]
      have hih := ih rest hl
      simp only [List.cons_append] at hih
      rw [hih]

theorem glue_live (k : Core) (rest : ByteStr) (h : k.dead = false) :
    glue k rest = ⟨k, rest⟩ := by
  simp [glue, h]

theorem process_glue_dead (k : Core) (rest : ByteStr) (h : k.dead = true) :
    Channel.process (glue k rest) = ⟨k, []⟩ := by
  have hg : glue k rest = ⟨k, []⟩ := by simp [glue, h]
  have hs : Channel.step ⟨k, []⟩ = none := by
    simp [Channel.step, h]
  rw [hg, process_eq, hs]

theorem step_cmd (c : Channel) (b0 : Bool) (line rest : ByteStr)
    (hd : c.core.dead = false) (hm : c.core.mode = .cmd b0)
    (hsp : splitCRLF c.buffer = some (line, rest)) :
    c.step = some (glue (c.core.handleLine line) rest) := by
  unfold Channel.step
  rw [if_neg (by rw [hd]; simp), hm, hsp]

theorem step_hdrs (c : Channel) (line rest : ByteStr)
    (hd : c.core.dead = false) (hm : c.core.mode = .hdrs)
    (hsp : splitCRLF c.buffer = some (line, rest)) :
    c.step = some (glue (c.core.handleLine line) rest) := by
  unfold Channel.step
  rw [if_neg (by rw [hd]; simp), hm, hsp]

theorem step_chunkLength_bad (c : Channel) (line rest : ByteStr)
    (hd : c.core.dead = false) (hm : c.core.mode = .bodyChunked .chunkLength)
    (hsp : splitCRLF c.buffer = some (line, rest))
    (hpc : parseChunkSize line = none) :
    c.step = some (glue c.core.badRequest rest) := by
  unfold Channel.step
  rw [if_neg (by rw [hd]; simp), hm]
  simp only [hsp, hpc]

theorem process_peel_cmd (c : Channel) (b0 : Bool) (line rest : ByteStr)
    (hd : c.core.dead = false) (hm : c.core.mode = .cmd b0)
    (hsp : splitCRLF c.buffer = some (line, rest)) :
    c.process = Channel.process (glue (c.core.handleLine line) rest) := by
  rw [process_eq, step_cmd c b0 line rest hd hm hsp]

theorem process_peel_hdrs (c : Channel) (line rest : ByteStr)
    (hd : c.core.dead = false) (hm : c.core.mode = .hdrs)
    (hsp : splitCRLF c.buffer = some (line, rest)) :
    c.process = Channel.process (glue (c.core.handleLine line) rest) := by
  rw [process_eq, step_hdrs c line rest hd hm hsp]

theorem process_peel_chunkLength_bad (c : Channel) (line rest : ByteStr)
    (hd : c.core.dead = false) (hm : c.core.mode = .bodyChunked .chunkLength)
    (hsp : splitCRLF c.buffer = some (line, rest))
    (hpc : parseChunkSize line = none) :
    c.process = Channel.process (glue c.core.badRequest rest) := by
  rw [process_eq, step_chunkLength_bad c line rest hd hm hsp hpc]

theorem dataReceived_fresh (mh ths : Nat) (handler : ReqData → List RespAction)
    (data : ByteStr) :
    (mkChannel mh ths handler).dataReceived data
      = Channel.process ⟨(mkChannel mh ths handler).core, data⟩ := by
  unfold Channel.dataReceived
  have hd : (mkChannel mh ths handler).core.dead = false := rfl
  rw [if_neg (by rw [hd]; simp)]
  have hb : (mkChannel mh ths handler).buffer ++ data = data := by
    rw [show (mkChannel mh ths handler).buffer = [] from rfl, List.nil_append]
  rw [hb]

theorem splitAtByte_clean : ∀ (name val : ByteStr), ¬ 58 ∈ name →
    splitAtByte 58 (name ++ 58 :: val) = some (name, val) := by
  intro name
  induction name with
  | nil =>
    intro val _
    show splitAtByte 58 (58 :: val) = some ([], val)
    simp only [splitAtByte]
    rw [if_pos trivial]
  | cons b l ih =>
    intro val h
    have hb : b ≠ 58 := fun hb => h (by rw [hb]; exact List.mem_cons_self _ _)
    have hl : ¬ 58 ∈ l := fun hm => h (List.mem_cons_of_mem _ hm)
    simp only [List.cons_append, splitAtByte]
    rw [if_neg hb]
    simp only [List.append_eq]
    rw [ih val hl]

theorem handleLine_size (c : Core) (line : ByteStr)
    (hsz : c.headerSize + line.length > c.totalHeadersSize) :
    c.handleLine line
      = Core.badRequest { c with headerSize := c.headerSize + line.length } := by
  simp only [Core.handleLine]
  rw [if_pos hsz]

theorem handleLine_cmd_nonascii (c : Core) (b0 : Bool) (line : ByteStr)
    (hm : c.mode = .cmd b0) (hA : allAscii line = false) :
    c.handleLine line
      = Core.badRequest { c with headerSize := c.headerSize + line.length } := by
  have hne : line ≠ [] := by
    intro he
    rw [he] at hA
    exact absurd hA (by decide)
  simp only [Core.handleLine]
  by_cases hsz : c.headerSize + line.length > c.totalHeadersSize
  · rw [if_pos hsz]
  · rw [if_neg hsz, hm]
    simp only []
    rw [if_neg (fun hc => hne hc.1)]
    split <;> simp [hA]

theorem handleLine_hdrs_newpending (c : Core) (line : ByteStr)
    (hm : c.mode = .hdrs)
    (hsz : ¬ c.headerSize + line.length > c.totalHeadersSize)
    (hne : line ≠ []) (hws : startsWithWS line = false)
    (hph : c.pendingHeader = []) :
    c.handleLine line
      = { c with headerSize := c.headerSize + line.length, pendingHeader := line } := by
  simp only [Core.handleLine]
  rw [if_neg hsz, hm]
  simp only []
  rw [if_neg hne]
  rw [hws]
  simp only [Bool.false_eq_true, if_false]
  rw [if_pos hph]

theorem handleLine_hdrs_blank_flush_bad (c k : Core)
    (hm : c.mode = .hdrs)
    (hsz : ¬ c.headerSize + List.length ([] : ByteStr) > c.totalHeadersSize)
    (hph : c.pendingHeader ≠ [])
    (hrec : Core.headerReceived
        { c with headerSize := c.headerSize + List.length ([] : ByteStr), pendingHeader := [] }
        c.pendingHeader = (k, false)) :
    c.handleLine [] = k := by
  simp only [Core.handleLine]
  rw [if_neg hsz, hm]
  simp only []
  rw [if_pos trivial, if_neg hph]
  rw [hm] at hrec
  rw [hrec]

theorem headerReceived_nocolon (c : Core) (line : ByteStr)
    (h : splitAtByte 58 line = none) :
    c.headerReceived line = (c.badRequest, false) := by
  simp only [Core.headerReceived]
  rw [h]

theorem headerReceived_badCL (c : Core) (line name0 value0 : ByteStr)
    (hsplit : splitAtByte 58 line = some (name0, value0))
    (hname : lowerBytes name0 = bs "content-length")
    (hval : parseDecimal (stripBytes value0) = none) :
    c.headerReceived line = (c.badRequest, false) := by
  simp only [Core.headerReceived]
  rw [hsplit]
  simp only []
  rw [if_pos (And.intro hname hval)]

theorem c2catA (mh ths : Nat) (handler : ReqData → List RespAction)
    (line rest : ByteStr) (h13 : ¬ 13 ∈ line) (hA : allAscii line = false) :
    ((mkChannel mh ths handler).dataReceived (line ++ 13 :: 10 :: rest)).transportOut
      = bs "HTTP/1.1 400 Bad Request\r\n\r\n"
    ∧ ((mkChannel mh ths handler).dataReceived (line ++ 13 :: 10 :: rest)).disconnecting
        = true
    ∧ (∀ more,
        ((mkChannel mh ths handler).dataReceived (line ++ 13 :: 10 :: rest)).dataReceived
            more
          = (mkChannel mh ths handler).dataReceived (line ++ 13 :: 10 :: rest)) := by
  have key : (mkChannel mh ths handler).dataReceived (line ++ 13 :: 10 :: rest)
      = ⟨Core.badRequest { (mkChannel mh ths handler).core with
          headerSize := (mkChannel mh ths handler).core.headerSize + line.length }, []⟩ := by
    rw [dataReceived_fresh]
    rw [process_peel_cmd ⟨(mkChannel mh ths handler).core, line ++ 13 :: 10 :: rest⟩
        false line rest rfl rfl (splitCRLF_clean line rest h13)]
    simp only []
    rw [handleLine_cmd_nonascii ((mkChannel mh ths handler).core) false line rfl hA]
    rw [process_glue_dead _ rest rfl]
  rw [key]
  exact ⟨rfl, rfl, fun more => rfl⟩

theorem c2catE (mh ths : Nat) (handler : ReqData → List RespAction)
    (line rest : ByteStr) (h13 : ¬ 13 ∈ line) (hsz : line.length > ths) :
    ((mkChannel mh ths handler).dataReceived (line ++ 13 :: 10 :: rest)).transportOut
      = bs "HTTP/1.1 400 Bad Request\r\n\r\n"
    ∧ ((mkChannel mh ths handler).dataReceived (line ++ 13 :: 10 :: rest)).disconnecting
        = true := by
  have key : (mkChannel mh ths handler).dataReceived (line ++ 13 :: 10 :: rest)
      = ⟨Core.badRequest { (mkChannel mh ths handler).core with
          headerSize := (mkChannel mh ths handler).core.headerSize + line.length }, []⟩ := by
    rw [dataReceived_fresh]
    rw [process_peel_cmd ⟨(mkChannel mh ths handler).core, line ++ 13 :: 10 :: rest⟩
        false line rest rfl rfl (splitCRLF_clean line rest h13)]
    simp only []
    rw [handleLine_size ((mkChannel mh ths handler).core) line
        (show (0 : Nat) + line.length > ths by omega)]
    rw [process_glue_dead _ rest rfl]
  rw [key]
  exact ⟨rfl, rfl⟩

/-- The channel core after the request line of the fatal-header scenarios. -/
def c2k1 (handler : ReqData → List RespAction) : Core :=
  (mkChannel 500 16384 handler).core.handleLine (bs "GET / HTTP/1.1")

/-- The core of the fatal-header scenarios while the offending header line is
pending. -/
def c2k2 (handler : ReqData → List RespAction) (hline : ByteStr) : Core :=
  { c2k1 handler with headerSize := (c2k1 handler).headerSize + hline.length, pendingHeader := hline }

/-- The core of the fatal-header scenarios at the blank line, as the pending
header is flushed to `headerReceived`. -/
def c2k3 (handler : ReqData → List RespAction) (hline : ByteStr) : Core :=
  { c2k2 handler hline with headerSize := (c2k2 handler hline).headerSize + List.length ([] : ByteStr), pendingHeader := [] }

theorem c2catB (handler : ReqData → List RespAction) (hline junk : ByteStr)
    (h13 : ¬ 13 ∈ hline) (hnc : splitAtByte 58 hline = none)
    (hne : hline ≠ []) (hws : startsWithWS hline = false)
    (hlen : hline.length ≤ 16000) :
    ((mkChannel 500 16384 handler).dataReceived
        (bs "GET / HTTP/1.1" ++ 13 :: 10 :: (hline ++ 13 :: 10 :: (13 :: 10 :: junk)))).transportOut
      = bs "HTTP/1.1 400 Bad Request\r\n\r\n"
    ∧ ((mkChannel 500 16384 handler).dataReceived
        (bs "GET / HTTP/1.1" ++ 13 :: 10 :: (hline ++ 13 :: 10 :: (13 :: 10 :: junk)))).disconnecting
      = true := by
  have key : (mkChannel 500 16384 handler).dataReceived
      (bs "GET / HTTP/1.1" ++ 13 :: 10 :: (hline ++ 13 :: 10 :: (13 :: 10 :: junk)))
      = ⟨(c2k3 handler hline).badRequest, []⟩ := by
    rw [dataReceived_fresh]
    rw [process_peel_cmd ⟨(mkChannel 500 16384 handler).core,
        bs "GET / HTTP/1.1" ++ 13 :: 10 :: (hline ++ 13 :: 10 :: (13 :: 10 :: junk))⟩
        false (bs "GET / HTTP/1.1") (hline ++ 13 :: 10 :: (13 :: 10 :: junk))
        rfl rfl (splitCRLF_clean _ _ (by decide))]
    simp only []
    rw [show (mkChannel 500 16384 handler).core.handleLine (bs "GET / HTTP/1.1")
        = c2k1 handler from rfl]
    rw [glue_live (c2k1 handler) _ rfl]
    rw [process_peel_hdrs ⟨c2k1 handler, hline ++ 13 :: 10 :: (13 :: 10 :: junk)⟩
        hline (13 :: 10 :: junk) rfl rfl (splitCRLF_clean _ _ h13)]
    simp only []
    rw [handleLine_hdrs_newpending (c2k1 handler) hline rfl
        (show ¬ (14 : Nat) + hline.length > 16384 by omega) hne hws rfl]
    rw [show { c2k1 handler with headerSize := (c2k1 handler).headerSize + hline.length, pendingHeader := hline } = c2k2 handler hline from rfl]
    rw [glue_live (c2k2 handler hline) _ rfl]
    rw [process_peel_hdrs ⟨c2k2 handler hline, 13 :: 10 :: junk⟩ [] junk rfl rfl rfl]
    simp only []
    rw [handleLine_hdrs_blank_flush_bad (c2k2 handler hline)
        ((c2k3 handler hline).badRequest) rfl
        (show ¬ ((14 : Nat) + hline.length) + List.length ([] : ByteStr) > 16384 by
          have hz : List.length ([] : ByteStr) = 0 := rfl
          omega)
        hne (headerReceived_nocolon (c2k3 handler hline)
          ((c2k2 handler hline).pendingHeader) hnc)]
    rw [process_glue_dead _ junk rfl]
  rw [key]
  exact ⟨rfl, rfl⟩

theorem c2catD (handler : ReqData → List RespAction) (v junk : ByteStr)
    (hv13 : ¬ 13 ∈ v) (hval : parseDecimal (stripBytes v) = none)
    (hlen : v.length ≤ 16000) :
    ((mkChannel 500 16384 handler).dataReceived
        (bs "GET / HTTP/1.1" ++ 13 :: 10 ::
          ((bs "Content-Length:" ++ v) ++ 13 :: 10 :: (13 :: 10 :: junk)))).transportOut
      = bs "HTTP/1.1 400 Bad Request\r\n\r\n"
    ∧ ((mkChannel 500 16384 handler).dataReceived
        (bs "GET / HTTP/1.1" ++ 13 :: 10 ::
          ((bs "Content-Length:" ++ v) ++ 13 :: 10 :: (13 :: 10 :: junk)))).disconnecting
      = true := by
  have h15 : (bs "Content-Length:").length = 15 := rfl
  have hz : List.length ([] : ByteStr) = 0 := rfl
  have h13 : ¬ 13 ∈ bs "Content-Length:" ++ v := by
    intro h
    rcases List.mem_append.mp h with h1 | h2
    · exact absurd h1 (by decide)
    · exact hv13 h2
  have hne : bs "Content-Length:" ++ v ≠ [] := by
    intro h
    have hlenq := congrArg List.length h
    rw [List.length_append, h15, hz] at hlenq
    omega
  have hsplit : splitAtByte 58 (bs "Content-Length:" ++ v)
      = some (bs "Content-Length", v) :=
    splitAtByte_clean (bs "Content-Length") v (by decide)
  have key : (mkChannel 500 16384 handler).dataReceived
      (bs "GET / HTTP/1.1" ++ 13 :: 10 ::
        ((bs "Content-Length:" ++ v) ++ 13 :: 10 :: (13 :: 10 :: junk)))
      = ⟨(c2k3 handler (bs "Content-Length:" ++ v)).badRequest, []⟩ := by
    rw [dataReceived_fresh]
    rw [process_peel_cmd ⟨(mkChannel 500 16384 handler).core,
        bs "GET / HTTP/1.1" ++ 13 :: 10 ::
          ((bs "Content-Length:" ++ v) ++ 13 :: 10 :: (13 :: 10 :: junk))⟩
        false (bs "GET / HTTP/1.1")
        ((bs "Content-Length:" ++ v) ++ 13 :: 10 :: (13 :: 10 :: junk))
        rfl rfl (splitCRLF_clean _ _ (by decide))]
    simp only []
    rw [show (mkChannel 500 16384 handler).core.handleLine (bs "GET / HTTP/1.1")
        = c2k1 handler from rfl]
    rw [glue_live (c2k1 handler) _ rfl]
    rw [process_peel_hdrs ⟨c2k1 handler,
        (bs "Content-Length:" ++ v) ++ 13 :: 10 :: (13 :: 10 :: junk)⟩
        (bs "Content-Length:" ++ v) (13 :: 10 :: junk) rfl rfl
        (splitCRLF_clean _ _ h13)]
    simp only []
    rw [handleLine_hdrs_newpending (c2k1 handler) (bs "Content-Length:" ++ v) rfl
        (show ¬ (14 : Nat) + (bs "Content-Length:" ++ v).length > 16384 by
          rw [List.length_append]
          omega)
        hne rfl rfl]
    rw [show { c2k1 handler with headerSize := (c2k1 handler).headerSize + (bs "Content-Length:" ++ v).length, pendingHeader := bs "Content-Length:" ++ v } = c2k2 handler (bs "Content-Length:" ++ v) from rfl]
    rw [glue_live (c2k2 handler (bs "Content-Length:" ++ v)) _ rfl]
    rw [process_peel_hdrs ⟨c2k2 handler (bs "Content-Length:" ++ v), 13 :: 10 :: junk⟩
        [] junk rfl rfl rfl]
    simp only []
    rw [handleLine_hdrs_blank_flush_bad (c2k2 handler (bs "Content-Length:" ++ v))
        ((c2k3 handler (bs "Content-Length:" ++ v)).badRequest) rfl
        (show ¬ ((14 : Nat) + (bs "Content-Length:" ++ v).length)
            + List.length ([] : ByteStr) > 16384 by
          rw [List.length_append]
          omega)
        hne (headerReceived_badCL (c2k3 handler (bs "Content-Length:" ++ v))
          ((c2k2 handler (bs "Content-Length:" ++ v)).pendingHeader)
          (bs "Content-Length") v hsplit rfl hval)]
    rw [process_glue_dead _ junk rfl]
  rw [key]
  exact ⟨rfl, rfl⟩

theorem handleLine_hdrs_blank_flush_good (c k : Core)
    (hm : c.mode = .hdrs)
    (hsz : ¬ c.headerSize + List.length ([] : ByteStr) > c.totalHeadersSize)
    (hph : c.pendingHeader ≠ [])
    (hrec : Core.headerReceived
        { c with headerSize := c.headerSize + List.length ([] : ByteStr), pendingHeader := [] }
        c.pendingHeader = (k, true)) :
    c.handleLine [] = k.allHeadersReceived := by
  simp only [Core.handleLine]
  rw [if_neg hsz, hm]
  simp only []
  rw [if_pos trivial, if_neg hph]
  rw [hm] at hrec
  rw [hrec]

/-- The core of the chunked scenario after its single header is parsed. -/
def c2k4 (handler : ReqData → List RespAction) : Core :=
  (Core.headerReceived (c2k3 handler (bs "Transfer-Encoding: chunked"))
    ((c2k2 handler (bs "Transfer-Encoding: chunked")).pendingHeader)).1

/-- The core of the chunked scenario awaiting the first chunk-size line. -/
def c2k5 (handler : ReqData → List RespAction) : Core :=
  (c2k4 handler).allHeadersReceived

theorem c2catC (handler : ReqData → List RespAction) (sline junk : ByteStr)
    (hs13 : ¬ 13 ∈ sline) (hpc : parseChunkSize sline = none) :
    ((mkChannel 500 16384 handler).dataReceived
        (bs "GET / HTTP/1.1" ++ 13 :: 10 ::
          (bs "Transfer-Encoding: chunked" ++ 13 :: 10 ::
            (13 :: 10 :: (sline ++ 13 :: 10 :: junk))))).transportOut
      = bs "HTTP/1.1 400 Bad Request\r\n\r\n"
    ∧ ((mkChannel 500 16384 handler).dataReceived
        (bs "GET / HTTP/1.1" ++ 13 :: 10 ::
          (bs "Transfer-Encoding: chunked" ++ 13 :: 10 ::
            (13 :: 10 :: (sline ++ 13 :: 10 :: junk))))).disconnecting
      = true := by
  have key : (mkChannel 500 16384 handler).dataReceived
      (bs "GET / HTTP/1.1" ++ 13 :: 10 ::
        (bs "Transfer-Encoding: chunked" ++ 13 :: 10 ::
          (13 :: 10 :: (sline ++ 13 :: 10 :: junk))))
      = ⟨(c2k5 handler).badRequest, []⟩ := by
    rw [dataReceived_fresh]
    rw [process_peel_cmd ⟨(mkChannel 500 16384 handler).core,
        bs "GET / HTTP/1.1" ++ 13 :: 10 ::
          (bs "Transfer-Encoding: chunked" ++ 13 :: 10 ::
            (13 :: 10 :: (sline ++ 13 :: 10 :: junk)))⟩
        false (bs "GET / HTTP/1.1")
        (bs "Transfer-Encoding: chunked" ++ 13 :: 10 ::
          (13 :: 10 :: (sline ++ 13 :: 10 :: junk)))
        rfl rfl (splitCRLF_clean _ _ (by decide))]
    simp only []
    rw [show (mkChannel 500 16384 handler).core.handleLine (bs "GET / HTTP/1.1")
        = c2k1 handler from rfl]
    rw [glue_live (c2k1 handler) _ rfl]
    rw [process_peel_hdrs ⟨c2k1 handler,
        bs "Transfer-Encoding: chunked" ++ 13 :: 10 ::
          (13 :: 10 :: (sline ++ 13 :: 10 :: junk))⟩
        (bs "Transfer-Encoding: chunked") (13 :: 10 :: (sline ++ 13 :: 10 :: junk))
        rfl rfl (splitCRLF_clean _ _ (by decide))]
    simp only []
    rw [handleLine_hdrs_newpending (c2k1 handler) (bs "Transfer-Encoding: chunked") rfl
        (show ¬ (14 : Nat) + List.length (bs "Transfer-Encoding: chunked") > 16384 by decide)
        (show bs "Transfer-Encoding: chunked" ≠ [] by decide) rfl rfl]
    rw [show { c2k1 handler with headerSize := (c2k1 handler).headerSize + (bs "Transfer-Encoding: chunked").length, pendingHeader := bs "Transfer-Encoding: chunked" } = c2k2 handler (bs "Transfer-Encoding: chunked") from rfl]
    rw [glue_live (c2k2 handler (bs "Transfer-Encoding: chunked")) _ rfl]
    rw [process_peel_hdrs ⟨c2k2 handler (bs "Transfer-Encoding: chunked"),
        13 :: 10 :: (sline ++ 13 :: 10 :: junk)⟩
        [] (sline ++ 13 :: 10 :: junk) rfl rfl rfl]
    simp only []
    rw [handleLine_hdrs_blank_flush_good (c2k2 handler (bs "Transfer-Encoding: chunked"))
        (c2k4 handler) rfl
        (show ¬ ((14 : Nat) + List.length (bs "Transfer-Encoding: chunked"))
            + List.length ([] : ByteStr) > 16384 by decide)
        (show bs "Transfer-Encoding: chunked" ≠ [] by decide) rfl]
    rw [show (c2k4 handler).allHeadersReceived = c2k5 handler from rfl]
    rw [glue_live (c2k5 handler) _ rfl]
    rw [process_peel_chunkLength_bad ⟨c2k5 handler, sline ++ 13 :: 10 :: junk⟩
        sline junk rfl rfl (splitCRLF_clean _ _ hs13) hpc]
    simp only []
    rw [process_glue_dead _ junk rfl]
  rw [key]
  exact ⟨rfl, rfl⟩

/-- C2: on every fatal parse error — a request line containing non-ASCII
bytes, a header line with no colon, a malformed (non-hexadecimal) chunk-size
line, a non-integer Content-Length value, and a headers-size or header-count
limit violation — the channel writes exactly the bytes
`HTTP/1.1 400 Bad Request\r\n\r\n` (no other headers, no body) and closes the
connection (and, for the first category, ignores all further input). -/
theorem c2_fatal_400 :
    (∀ (mh ths : Nat) (handler : ReqData → List RespAction) (line rest : ByteStr),
      ¬ 13 ∈ line → allAscii line = false →
      ((mkChannel mh ths handler).dataReceived (line ++ 13 :: 10 :: rest)).transportOut
          = bs "HTTP/1.1 400 Bad Request\r\n\r\n"
        ∧ ((mkChannel mh ths handler).dataReceived (line ++ 13 :: 10 :: rest)).disconnecting
          = true
        ∧ (∀ more,
            ((mkChannel mh ths handler).dataReceived
                (line ++ 13 :: 10 :: rest)).dataReceived more
              = (mkChannel mh ths handler).dataReceived (line ++ 13 :: 10 :: rest)))
    ∧ (∀ (handler : ReqData → List RespAction) (hline junk : ByteStr),
      ¬ 13 ∈ hline → splitAtByte 58 hline = none → hline ≠ [] →
      startsWithWS hline = false → hline.length ≤ 16000 →
      ((mkChannel 500 16384 handler).dataReceived
          (bs "GET / HTTP/1.1" ++ 13 :: 10 :: (hline ++ 13 :: 10 :: (13 :: 10 :: junk)))).transportOut
          = bs "HTTP/1.1 400 Bad Request\r\n\r\n"
        ∧ ((mkChannel 500 16384 handler).dataReceived
            (bs "GET / HTTP/1.1" ++ 13 :: 10 :: (hline ++ 13 :: 10 :: (13 :: 10 :: junk)))).disconnecting
          = true)
    ∧ (∀ (handler : ReqData → List RespAction) (sline junk : ByteStr),
      ¬ 13 ∈ sline → parseChunkSize sline = none →
      ((mkChannel 500 16384 handler).dataReceived
          (bs "GET / HTTP/1.1" ++ 13 :: 10 ::
            (bs "Transfer-Encoding: chunked" ++ 13 :: 10 ::
              (13 :: 10 :: (sline ++ 13 :: 10 :: junk))))).transportOut
          = bs "HTTP/1.1 400 Bad Request\r\n\r\n"
        ∧ ((mkChannel 500 16384 handler).dataReceived
            (bs "GET / HTTP/1.1" ++ 13 :: 10 ::
              (bs "Transfer-Encoding: chunked" ++ 13 :: 10 ::
                (13 :: 10 :: (sline ++ 13 :: 10 :: junk))))).disconnecting
          = true)
    ∧ (∀ (handler : ReqData → List RespAction) (v junk : ByteStr),
      ¬ 13 ∈ v → parseDecimal (stripBytes v) = none → v.length ≤ 16000 →
      ((mkChannel 500 16384 handler).dataReceived
          (bs "GET / HTTP/1.1" ++ 13 :: 10 ::
            ((bs "Content-Length:" ++ v) ++ 13 :: 10 :: (13 :: 10 :: junk)))).transportOut
          = bs "HTTP/1.1 400 Bad Request\r\n\r\n"
        ∧ ((mkChannel 500 16384 handler).dataReceived
            (bs "GET / HTTP/1.1" ++ 13 :: 10 ::
              ((bs "Content-Length:" ++ v) ++ 13 :: 10 :: (13 :: 10 :: junk)))).disconnecting
          = true)
    ∧ (∀ (mh ths : Nat) (handler : ReqData → List RespAction) (line rest : ByteStr),
      ¬ 13 ∈ line → line.length > ths →
      ((mkChannel mh ths handler).dataReceived (line ++ 13 :: 10 :: rest)).transportOut
          = bs "HTTP/1.1 400 Bad Request\r\n\r\n"
        ∧ ((mkChannel mh ths handler).dataReceived (line ++ 13 :: 10 :: rest)).disconnecting
          = true)
    ∧ (((mkChannel 0 16384 simpleHandler).dataReceived
          (bs "GET / HTTP/1.1\r\nFoo: bar\r\n\r\n")).transportOut
        = bs "HTTP/1.1 400 Bad Request\r\n\r\n"
      ∧ ((mkChannel 0 16384 simpleHandler).dataReceived
          (bs "GET / HTTP/1.1\r\nFoo: bar\r\n\r\n")).disconnecting = true) := by
  refine ⟨c2catA, c2catB, c2catC, c2catD, c2catE, ?_, ?_⟩ <;> decide

/-- Witness for C2: each symbolic category applied to a concrete offender —
the non-ASCII method of `test_invalidNonAsciiMethod`, a colonless header
line, the `malformed!` chunk-size line, a dotted Content-Length, and a
request line longer than a 5-byte header budget. -/
theorem c2_fatal_400_witness :
    (((mkChannel 500 16384 simpleHandler).dataReceived
        (([71, 69, 194, 169] ++ bs " / HTTP/1.1") ++ 13 :: 10 :: [])).transportOut
      = bs "HTTP/1.1 400 Bad Request\r\n\r\n")
    ∧ (((mkChannel 500 16384 simpleHandler).dataReceived
        (bs "GET / HTTP/1.1" ++ 13 :: 10 ::
          (bs "NoColonHere" ++ 13 :: 10 :: (13 :: 10 :: [])))).transportOut
      = bs "HTTP/1.1 400 Bad Request\r\n\r\n")
    ∧ (((mkChannel 500 16384 simpleHandler).dataReceived
        (bs "GET / HTTP/1.1" ++ 13 :: 10 ::
          (bs "Transfer-Encoding: chunked" ++ 13 :: 10 ::
            (13 :: 10 :: (bs "malformed!" ++ 13 :: 10 :: []))))).transportOut
      = bs "HTTP/1.1 400 Bad Request\r\n\r\n")
    ∧ (((mkChannel 500 16384 simpleHandler).dataReceived
        (bs "GET / HTTP/1.1" ++ 13 :: 10 ::
          ((bs "Content-Length:" ++ bs " 0x10") ++ 13 :: 10 :: (13 :: 10 :: [])))).transportOut
      = bs "HTTP/1.1 400 Bad Request\r\n\r\n")
    ∧ (((mkChannel 500 5 simpleHandler).dataReceived
        (bs "GET / HTTP/1.1" ++ 13 :: 10 :: [])).transportOut
      = bs "HTTP/1.1 400 Bad Request\r\n\r\n") :=
  ⟨(c2_fatal_400.1 500 16384 simpleHandler ([71, 69, 194, 169] ++ bs " / HTTP/1.1") []
      (by decide) (by decide)).1,
   (c2_fatal_400.2.1 simpleHandler (bs "NoColonHere") []
      (by decide) (by decide) (by decide) (by decide) (by decide)).1,
   (c2_fatal_400.2.2.1 simpleHandler (bs "malformed!") []
      (by decide) (by decide)).1,
   (c2_fatal_400.2.2.2.1 simpleHandler (bs " 0x10") []
      (by decide) (by decide) (by decide)).1,
   (c2_fatal_400.2.2.2.2.1 500 5 simpleHandler (bs "GET / HTTP/1.1") []
      (by decide) (by decide)).1⟩
